import Mathlib

/-!
# Heron Tennis Ladder — verification of the ranking engine

Shallow embedding of the ladder ranking engine of `src/App.jsx`
(score parser, score validator, result aggregator, ladder position
engine, match transaction coordinator), followed by theorems about
the frozen claims.

Modelling conventions:
* JavaScript numbers are modelled as `Int` (all values the engine
  produces and consumes here are integers; overflow does not occur in
  the ranges involved and JS integers are exact up to 2^53).
* JS strings are Lean `String`s; the character-level operations
  (`trim`, `split`, `includes`) are embedded as functions on
  `List Char` mirroring the source's behaviour.
* `Number(str)` coercion is modelled by `jsStrToNumber`, covering the
  empty string (which JS coerces to `0`) and optionally signed decimal
  integer literals; exotic JS literal forms (fractions, exponents, hex)
  are outside the model.
* Nondeterministic id minting (`uid()`) is modelled by passing the
  fresh id as an explicit argument.
-/

namespace Heron

/-- JS `clamp(n, min, max) = Math.min(max, Math.max(min, n))` from the source. -/
def clampNum (n lo hi : Int) : Int := min hi (max lo n)

/-- JS `clampMin0(n) = Math.max(0, asNumber(n, 0))` from the source
(our inputs are always numbers, so `asNumber` is the identity). -/
def clampMin0 (n : Int) : Int := max 0 n

/-- Apostrophe character, used to build the user-facing message strings. -/
def apos : String := String.singleton (Char.ofNat 39)

/-! ## Character-level string operations (JS semantics) -/

/-- Drop trailing whitespace, as the tail half of JS `String.trim`. -/
def dropTrailingWs (l : List Char) : List Char :=
  (l.reverse.dropWhile Char.isWhitespace).reverse

/-- JS `String.trim` on the character list (ASCII whitespace; the app
only feeds ASCII score text). -/
def trimChars (l : List Char) : List Char :=
  dropTrailingWs (l.dropWhile Char.isWhitespace)

/-- JS `str.split(sep)` for a one-character separator: `"".split` gives
`[""]`, separators at the ends give empty fields. -/
def splitOnChar (sep : Char) : List Char → List (List Char)
  | [] => [[]]
  | c :: rest =>
    match splitOnChar sep rest with
    | [] => [[]]
    | t :: ts => if c = sep then [] :: t :: ts else (c :: t) :: ts

/-- The source's whitespace-collapsing loop
`while (cleaned.includes("  ")) cleaned = cleaned.split("  ").join(" ")`:
its fixed point replaces every run of spaces by a single space. -/
def squeezeSpaces : List Char → List Char
  | [] => []
  | [c] => [c]
  | c1 :: c2 :: rest =>
    if c1 = ' ' ∧ c2 = ' ' then squeezeSpaces (c2 :: rest)
    else c1 :: squeezeSpaces (c2 :: rest)

/-- The source maps literal newline and tab characters to spaces before
splitting (`raw.split(NL).join(" ").split(TAB).join(" ")`). -/
def nlTabToSpace (c : Char) : Char :=
  if c = Char.ofNat 10 ∨ c = Char.ofNat 9 then ' ' else c

/-- Value of a non-empty all-digit string, else `none`. -/
def digitsVal (ds : List Char) : Option Int :=
  if ds ≠ [] ∧ ds.all Char.isDigit then
    some (ds.foldl (fun a c => a * 10 + ((c.toNat : Int) - 48)) 0)
  else none

/-- Model of JS `Number(str)` restricted to finite results, as used by
`asNumber` in the source: the empty (or all-whitespace) string coerces
to `0`; optionally signed decimal integer literals have their value;
everything else is `NaN` (`none`).  Fractional, exponent and hex
literals are outside the model. -/
def jsStrToNumber (l : List Char) : Option Int :=
  match trimChars l with
  | [] => some 0
  | '+' :: ds => digitsVal ds
  | '-' :: ds => (digitsVal ds).map (fun n => -n)
  | ds => digitsVal ds

/-! ## Score parser (`parseScore`) -/

/-- One set score `{ p1, p2 }`. -/
structure SetPair where
  p1 : Int
  p2 : Int
deriving DecidableEq, Repr

/-- Result shape of `parseScore`: `{ valid, sets, message }` (the source
omits `message` on success; we use `""`). -/
structure ScoreParse where
  valid : Bool
  sets : List SetPair
  message : String
deriving DecidableEq, Repr

def msgEmptyScore : String := "Please enter a score (e.g. 6-4 6-3)."

/-- `Couldn't read set: "tok"` — identical text for all three per-token
failure branches of the source. -/
def msgBadToken (part : String) : String :=
  "Couldn" ++ apos ++ "t read set: \"" ++ part ++ "\""

/-- Per-token body of the `parseScore` loop: a `-` (else `:`) separated
token must split into exactly two fields, each a finite number. -/
def parseSetToken (part : List Char) : Option SetPair :=
  if part.contains '-' then
    match splitOnChar '-' part with
    | [a, b] =>
      match jsStrToNumber a, jsStrToNumber b with
      | some x, some y => some ⟨x, y⟩
      | _, _ => none
    | _ => none
  else if part.contains ':' then
    match splitOnChar ':' part with
    | [a, b] =>
      match jsStrToNumber a, jsStrToNumber b with
      | some x, some y => some ⟨x, y⟩
      | _, _ => none
    | _ => none
  else none

/-- The token list `parseScore` iterates over: trim, replace newlines
and tabs by spaces, collapse space runs, split on spaces, drop empty
parts (`.filter(Boolean)`). -/
def scoreTokens (scoreStr : String) : List (List Char) :=
  (splitOnChar ' ' (squeezeSpaces ((trimChars scoreStr.data).map nlTabToSpace))).filter
    (fun t => t ≠ [])

/-- The `for (const part of parts)` loop: first bad token aborts with
its message, otherwise the set pairs accumulate in order. -/
def parseTokens : List (List Char) → Except String (List SetPair)
  | [] => .ok []
  | t :: ts =>
    match parseSetToken t with
    | none => .error (msgBadToken (String.mk t))
    | some sp =>
      match parseTokens ts with
      | .error e => .error e
      | .ok rest => .ok (sp :: rest)

/-- `parseScore` from the source. -/
def parseScore (scoreStr : String) : ScoreParse :=
  if trimChars scoreStr.data = [] then ⟨false, [], msgEmptyScore⟩
  else
    match parseTokens (scoreTokens scoreStr) with
    | .error m => ⟨false, [], m⟩
    | .ok sets => ⟨true, sets, ""⟩

/-! ## Score validator (`validateSets`) -/

/-- Result shape of `validateSets`: `{ ok, message }`. -/
structure SetsCheck where
  ok : Bool
  message : String
deriving DecidableEq, Repr

def msgMin2 : String := "Enter at least 2 sets (e.g. 6-4 6-3)."
def msgNegative : String := "Scores must be non-negative numbers."
def msgSetTied : String := "A set can" ++ apos ++ "t be tied."
def msgTieBreak : String := "Match tie-break must be won by 2 points."
def msgImpossible : String :=
  "Impossible set score. Use 6-x, 7-5, 7-6, or match tie-break 10+."
def msgMatchTied : String :=
  "Match can" ++ apos ++ "t end tied on sets. Add a deciding set / match tie-break."

/-- Per-set checks of the `validateSets` loop (the source's `asNumber`
coercions are identities on our `Int` fields); `some msg` is the early
return, `none` means the set passes. -/
def setCheckError (s : SetPair) : Option String :=
  if s.p1 < 0 ∨ s.p2 < 0 then some msgNegative
  else if s.p1 = s.p2 then some msgSetTied
  else
    let hi := max s.p1 s.p2
    let lo := min s.p1 s.p2
    if 10 ≤ hi then
      if hi - lo < 2 then some msgTieBreak else none
    else
      if (hi = 6 ∧ lo ≤ 4) ∨ (hi = 7 ∧ lo = 5) ∨ (hi = 7 ∧ lo = 6) then none
      else some msgImpossible

/-- The `validateSets` loop with its two set-count accumulators
(`p1Sets`, `p2Sets`); ties tally to `p2Sets` but cannot survive the
per-set check. -/
def validateGo : List SetPair → Int → Int → SetsCheck
  | [], a, b => if a = b then ⟨false, msgMatchTied⟩ else ⟨true, ""⟩
  | s :: rest, a, b =>
    match setCheckError s with
    | some m => ⟨false, m⟩
    | none =>
      if s.p1 > s.p2 then validateGo rest (a + 1) b else validateGo rest a (b + 1)

/-- `validateSets` from the source. -/
def validateSets (sets : List SetPair) : SetsCheck :=
  if sets.length < 2 then ⟨false, msgMin2⟩ else validateGo sets 0 0

/-! ## Result aggregator (`computeFromSets`) -/

/-- `{ p1Sets, p2Sets, p1Games, p2Games }`. -/
structure SetsTotals where
  p1Sets : Int
  p2Sets : Int
  p1Games : Int
  p2Games : Int
deriving DecidableEq, Repr

/-- `computeFromSets` from the source (the source accumulates left to
right; integer addition is commutative so head recursion computes the
same totals). -/
def computeFromSets : List SetPair → SetsTotals
  | [] => ⟨0, 0, 0, 0⟩
  | s :: rest =>
    let t := computeFromSets rest
    { p1Sets := t.p1Sets + (if s.p1 > s.p2 then 1 else 0)
      p2Sets := t.p2Sets + (if s.p2 > s.p1 then 1 else 0)
      p1Games := t.p1Games + s.p1
      p2Games := t.p2Games + s.p2 }

/-! ## Month buckets (`monthKeyFromDateISO`) -/

/-- The five season month buckets. -/
inductive MonthKey where
  | apr | may | jun | jul | aug
deriving DecidableEq, Repr

/-- `monthKeyFromDateISO` from the source, modelling `new Date(iso)`
for the app's `YYYY-MM-DD` inputs: `getMonth()` is the month field
minus one; months other than April..August map to no bucket, and an
unparseable date (`Invalid Date`) maps to `none`. -/
def monthKeyFromDateISO (dateISO : String) : Option MonthKey :=
  match splitOnChar '-' dateISO.data with
  | [y, m, d] =>
    match digitsVal y, digitsVal m, digitsVal d with
    | some _, some mv, some dv =>
      if 1 ≤ mv ∧ mv ≤ 12 ∧ 1 ≤ dv ∧ dv ≤ 31 then
        if mv = 4 then some .apr
        else if mv = 5 then some .may
        else if mv = 6 then some .jun
        else if mv = 7 then some .jul
        else if mv = 8 then some .aug
        else none
      else none
    | _, _, _ => none
  | _ => none

/-! ## Data model -/

/-- One ladder slot (`createEmptyPlayer` shape). -/
structure Player where
  pid : String
  position : Int
  name : String
  matchesPlayed : Int
  matchesWon : Int
  setsWon : Int
  setsLost : Int
  gamesWon : Int
  gamesLost : Int
  apr : Int
  may : Int
  jun : Int
  jul : Int
  aug : Int
deriving DecidableEq, Repr

/-- One logged match result. -/
structure MatchRecord where
  id : String
  date : String
  positionPlayedFor : Int
  challengerPid : String
  opponentPid : String
  winnerId : String
  score : String
  surface : String
  challengerStartPos : Int
  opponentStartPos : Int
  ladderMoveApplied : Bool
deriving DecidableEq, Repr

/-- The snapshot `{ playerCount, players, matches }`. -/
structure AppState where
  playerCount : Int
  players : List Player
  «matches» : List MatchRecord
deriving DecidableEq, Repr

/-! ## Ladder position engine -/

/-- The source's `moved.find(p => p.pid === pid); if (ch) ch.position = …`
pattern: update the first list element with the given pid (if any). -/
def updateFirst : List Player → String → (Player → Player) → List Player
  | [], _, _ => []
  | p :: rest, cid, f =>
    if p.pid = cid then f p :: rest else p :: updateFirst rest cid f

/-- `p.position = v` assignment (`ch.position = opponentPos` etc.). -/
def setPosF (v : Int) (p : Player) : Player := { p with position := v }

/-- Loop body of `applyLadderMove`: every player other than the
challenger whose position lies in `[t, s)` gets `position += 1`. -/
def bumpF (cid : String) (t s : Int) (p : Player) : Player :=
  if p.pid = cid then p
  else if t ≤ p.position ∧ p.position < s then { p with position := p.position + 1 }
  else p

/-- Loop body of `reverseLadderMove`: every player other than the
challenger whose position lies in `(t, s]` gets `position -= 1`. -/
def unbumpF (cid : String) (t s : Int) (p : Player) : Player :=
  if p.pid = cid then p
  else if t < p.position ∧ p.position ≤ s then { p with position := p.position - 1 }
  else p

/-- `applyLadderMove(players, challengerPid, opponentPos)` from the
source: no-op unless the challenger exists and sits strictly below
(larger number than) `opponentPos`; otherwise every other player in
`[opponentPos, challengerStartPos)` shifts down one and the challenger
takes `opponentPos`. -/
def applyLadderMove (players : List Player) (challengerPid : String)
    (opponentPos : Int) : List Player × Bool :=
  match players.find? (fun p => p.pid == challengerPid) with
  | none => (players, false)
  | some challenger =>
    if challenger.position ≤ opponentPos then (players, false)
    else
      (updateFirst (players.map (bumpF challengerPid opponentPos challenger.position))
          challengerPid (setPosF opponentPos),
        true)

/-- `reverseLadderMove(players, challengerPid, challengerStartPos,
opponentStartPos)` from the source: every other player in
`(opponentStartPos, challengerStartPos]` shifts up one and the
challenger is restored to `challengerStartPos`. -/
def reverseLadderMove (players : List Player) (challengerPid : String)
    (challengerStartPos opponentStartPos : Int) : List Player :=
  match players.find? (fun p => p.pid == challengerPid) with
  | none => players
  | some _ =>
    updateFirst
      (players.map (unbumpF challengerPid opponentStartPos challengerStartPos))
      challengerPid (setPosF challengerStartPos)

/-! ## Match transaction coordinator -/

/-- Read a month-bucket counter. -/
def getMonth (k : MonthKey) (p : Player) : Int :=
  match k with
  | .apr => p.apr
  | .may => p.may
  | .jun => p.jun
  | .jul => p.jul
  | .aug => p.aug

/-- Write a month-bucket counter. -/
def setMonth (k : MonthKey) (v : Int) (p : Player) : Player :=
  match k with
  | .apr => { p with apr := v }
  | .may => { p with may := v }
  | .jun => { p with jun := v }
  | .jul => { p with jul := v }
  | .aug => { p with aug := v }

/-- Per-player statistics update of `actuallyAddMatch` (unclamped `+`
increments; `if (monthKey) next[monthKey] += 1`). -/
def addStatsF (chPid opPid winnerId : String) (tot : SetsTotals)
    (mk : Option MonthKey) (p : Player) : Player :=
  if p.pid ≠ chPid ∧ p.pid ≠ opPid then p
  else
    let isP1 := p.pid = chPid
    let dw : Int := if (winnerId = "p1" ∧ isP1) ∨ (winnerId = "p2" ∧ ¬isP1) then 1 else 0
    let q :=
      { p with
        matchesPlayed := p.matchesPlayed + 1
        matchesWon := p.matchesWon + dw
        setsWon := p.setsWon + (if isP1 then tot.p1Sets else tot.p2Sets)
        setsLost := p.setsLost + (if isP1 then tot.p2Sets else tot.p1Sets)
        gamesWon := p.gamesWon + (if isP1 then tot.p1Games else tot.p2Games)
        gamesLost := p.gamesLost + (if isP1 then tot.p2Games else tot.p1Games) }
    match mk with
    | none => q
    | some k => setMonth k (getMonth k q + 1) q

/-- Per-player statistics reversal of `deleteMatchConfirmed` (every
decrement clamped at 0 by `clampMin0`). -/
def subStatsF (m : MatchRecord) (tot : SetsTotals) (mk : Option MonthKey)
    (p : Player) : Player :=
  if p.pid ≠ m.challengerPid ∧ p.pid ≠ m.opponentPid then p
  else
    let isP1 := p.pid = m.challengerPid
    let dw : Int :=
      if (m.winnerId = "p1" ∧ isP1) ∨ (m.winnerId = "p2" ∧ ¬isP1) then 1 else 0
    let q :=
      { p with
        matchesPlayed := clampMin0 (p.matchesPlayed - 1)
        matchesWon := clampMin0 (p.matchesWon - dw)
        setsWon := clampMin0 (p.setsWon - (if isP1 then tot.p1Sets else tot.p2Sets))
        setsLost := clampMin0 (p.setsLost - (if isP1 then tot.p2Sets else tot.p1Sets))
        gamesWon := clampMin0 (p.gamesWon - (if isP1 then tot.p1Games else tot.p2Games))
        gamesLost := clampMin0 (p.gamesLost - (if isP1 then tot.p2Games else tot.p1Games)) }
    match mk with
    | none => q
    | some k => setMonth k (clampMin0 (getMonth k q - 1)) q

/-- Per-player statistics delta of `actuallySaveEdit`'s
`applyMatchDelta` (direction `dir ∈ {+1, -1}`, every field clamped). -/
def deltaStatsF (m : MatchRecord) (tot : SetsTotals) (mk : Option MonthKey)
    (dir : Int) (p : Player) : Player :=
  if p.pid ≠ m.challengerPid ∧ p.pid ≠ m.opponentPid then p
  else
    let isP1 := p.pid = m.challengerPid
    let dw : Int :=
      if (m.winnerId = "p1" ∧ isP1) ∨ (m.winnerId = "p2" ∧ ¬isP1) then 1 else 0
    let q :=
      { p with
        matchesPlayed := clampMin0 (p.matchesPlayed + 1 * dir)
        matchesWon := clampMin0 (p.matchesWon + dw * dir)
        setsWon := clampMin0 (p.setsWon + (if isP1 then tot.p1Sets else tot.p2Sets) * dir)
        setsLost := clampMin0 (p.setsLost + (if isP1 then tot.p2Sets else tot.p1Sets) * dir)
        gamesWon := clampMin0 (p.gamesWon + (if isP1 then tot.p1Games else tot.p2Games) * dir)
        gamesLost := clampMin0 (p.gamesLost + (if isP1 then tot.p2Games else tot.p1Games) * dir) }
    match mk with
    | none => q
    | some k => setMonth k (clampMin0 (getMonth k q + 1 * dir)) q

/-- Parameters of the add-match form consumed by `actuallyAddMatch`
(`matchPos` arrives already coerced to a number). -/
structure AddParams where
  date : String
  posInput : Int
  challengerPid : String
  winner : String
  surface : String
  score : String
deriving DecidableEq, Repr

/-- Pure state transition of `actuallyAddMatch`: the guard chain, score
parse + validation, ladder move decision, statistic deltas and the new
match record (fresh id passed in for `uid()`).  `.error` carries the
`setError` message and leaves the snapshot unchanged. -/
def addMatch (S : AppState) (P : AddParams) (newId : String) :
    Except String AppState :=
  let pos := clampNum P.posInput 1 S.playerCount
  match S.players.find? (fun p => p.position == pos) with
  | none => .error "Invalid position selected."
  | some p2 =>
    if trimChars p2.name.data = [] then
      .error ("The player at position #" ++ toString pos ++ " has no name yet.")
    else if P.challengerPid = "" then .error "Pick a Challenger."
    else
      match S.players.find? (fun p => p.pid == P.challengerPid) with
      | none => .error "Challenger is missing / has no name."
      | some p1 =>
        if trimChars p1.name.data = [] then .error "Challenger is missing / has no name."
        else if p1.pid = p2.pid then
          .error ("Challenger can" ++ apos ++ "t play themselves.")
        else
          let parsed := parseScore P.score
          if ¬parsed.valid then .error parsed.message
          else
            let validity := validateSets parsed.sets
            if ¬validity.ok then .error validity.message
            else
              let tot := computeFromSets parsed.sets
              let mk := monthKeyFromDateISO P.date
              let chStart := p1.position
              let opStart := p2.position
              let shouldMove := P.winner = "p1" ∧ chStart > opStart
              let moved :=
                if shouldMove then applyLadderMove S.players p1.pid opStart
                else (S.players, false)
              let newRec : MatchRecord :=
                { id := newId
                  date := P.date
                  positionPlayedFor := opStart
                  challengerPid := p1.pid
                  opponentPid := p2.pid
                  winnerId := P.winner
                  score := String.mk (trimChars P.score.data)
                  surface := P.surface
                  challengerStartPos := chStart
                  opponentStartPos := opStart
                  ladderMoveApplied := moved.2 }
              let updated :=
                (S.players.map (addStatsF p1.pid p2.pid P.winner tot mk)).map
                  (fun p =>
                    if ¬moved.2 then p
                    else
                      match moved.1.find? (fun x => x.pid == p.pid) with
                      | some a => { p with position := a.position }
                      | none => p)
              .ok { S with «matches» := newRec :: S.«matches», players := updated }

/-- Pure state transition of `deleteMatchConfirmed`: an unknown id is a
no-op; otherwise the stored score is re-parsed and re-validated and the
statistic reversal is skipped when that fails, the ladder move is
reversed exactly when `ladderMoveApplied`, and the record is removed. -/
def deleteMatch (S : AppState) (id : String) : AppState :=
  match S.«matches».find? (fun m => m.id == id) with
  | none => S
  | some m =>
    let parsed := parseScore m.score
    let base :=
      if parsed.valid ∧ (validateSets parsed.sets).ok then
        S.players.map (subStatsF m (computeFromSets parsed.sets) (monthKeyFromDateISO m.date))
      else S.players
    let nextPlayers :=
      if m.ladderMoveApplied then
        reverseLadderMove base m.challengerPid m.challengerStartPos m.opponentStartPos
      else base
    { S with
      «matches» := S.«matches».filter (fun x => ¬(x.id == id))
      players := nextPlayers }

def msgStoredInvalid : String :=
  "Stored score invalid; can" ++ apos ++ "t edit safely."

/-- `applyMatchDelta` of `actuallySaveEdit`: re-parse and re-validate
the record's stored score (throwing on failure) and apply the
statistic delta in direction `dir`. -/
def matchDelta (players : List Player) (m : MatchRecord) (dir : Int) :
    Except String (List Player) :=
  let parsed := parseScore m.score
  if parsed.valid then
    if (validateSets parsed.sets).ok then
      .ok (players.map
        (deltaStatsF m (computeFromSets parsed.sets) (monthKeyFromDateISO m.date) dir))
    else .error msgStoredInvalid
  else .error msgStoredInvalid

/-- Replacement fields of the edit-match form. -/
structure EditParams where
  date : String
  surface : String
  winner : String
  score : String
deriving DecidableEq, Repr

/-- Pure state transition of `actuallySaveEdit`: validate the new score
up front, reverse the original ladder move (if applied), subtract the
original statistics, re-decide the ladder move from the post-reversal
roster, adopt the moved positions, add the new statistics, and replace
the record in place (same id). -/
def editMatch (S : AppState) (id : String) (Q : EditParams) :
    Except String AppState :=
  match S.«matches».find? (fun m => m.id == id) with
  | none => .error "Match not found."
  | some original =>
    let parsedNew := parseScore Q.score
    if ¬parsedNew.valid then .error parsedNew.message
    else if ¬(validateSets parsedNew.sets).ok then
      .error (validateSets parsedNew.sets).message
    else
      let ps1 :=
        if original.ladderMoveApplied then
          reverseLadderMove S.players original.challengerPid
            original.challengerStartPos original.opponentStartPos
        else S.players
      match matchDelta ps1 original (-1) with
      | .error e => .error e
      | .ok ps2 =>
        match ps2.find? (fun p => p.pid == original.challengerPid),
            ps2.find? (fun p => p.pid == original.opponentPid) with
        | some p1, some p2 =>
          let chStart := p1.position
          let opStart := p2.position
          let shouldMove := Q.winner = "p1" ∧ chStart > opStart
          let moved :=
            if shouldMove then applyLadderMove ps2 p1.pid opStart else (ps2, false)
          let edited : MatchRecord :=
            { original with
              date := Q.date
              surface := Q.surface
              winnerId := Q.winner
              score := String.mk (trimChars Q.score.data)
              challengerStartPos := chStart
              opponentStartPos := opStart
              positionPlayedFor := opStart
              ladderMoveApplied := moved.2 }
          let ps3 := ps2.map (fun p =>
            match moved.1.find? (fun x => x.pid == p.pid) with
            | some a => { p with position := a.position }
            | none => p)
          match matchDelta ps3 edited 1 with
          | .error e => .error e
          | .ok ps4 =>
            .ok { S with
              players := ps4
              «matches» := S.«matches».map (fun m => if m.id == edited.id then edited else m) }
        | _, _ => .error "Players missing."

/-! ## Toolkit: pid-indexed list reasoning -/

theorem pid_map_map {f : Player → Player} (hf : ∀ p, (f p).pid = p.pid)
    (ps : List Player) : (ps.map f).map Player.pid = ps.map Player.pid := by
  rw [List.map_map]
  exact List.map_congr_left (fun p _ => hf p)

theorem map_pid_cond_id {ps : List Player} {cid : String}
    (f : Player → Player) (h : ∀ q ∈ ps, q.pid ≠ cid) :
    ps.map (fun p => if p.pid = cid then f p else p) = ps := by
  have h2 : ps.map (fun p => if p.pid = cid then f p else p) = ps.map id :=
    List.map_congr_left (fun q hq => by simp [h q hq])
  simpa using h2

/-- With pairwise-distinct pids, the find-then-mutate pattern is a map. -/
theorem updateFirst_eq_map {ps : List Player} {cid : String}
    (f : Player → Player) (hnd : (ps.map Player.pid).Nodup) :
    updateFirst ps cid f = ps.map (fun p => if p.pid = cid then f p else p) := by
  induction ps with
  | nil => rfl
  | cons p rest ih =>
    rw [List.map_cons, List.nodup_cons] at hnd
    by_cases hp : p.pid = cid
    · have hrest : ∀ q ∈ rest, q.pid ≠ cid := by
        intro q hq hqc
        exact hnd.1 (hp ▸ hqc ▸ List.mem_map_of_mem Player.pid hq)
      simp [updateFirst, hp, map_pid_cond_id f hrest]
    · simp [updateFirst, hp, ih hnd.2]

/-- With pairwise-distinct pids, `find?` by a member's pid returns that
member. -/
theorem find?_pid_self {ps : List Player} {q : Player}
    (hnd : (ps.map Player.pid).Nodup) (hq : q ∈ ps) :
    ps.find? (fun p => p.pid == q.pid) = some q := by
  induction ps with
  | nil => cases hq
  | cons p rest ih =>
    rw [List.map_cons, List.nodup_cons] at hnd
    rcases List.mem_cons.mp hq with rfl | hq2
    · simp [List.find?_cons]
    · have hne : p.pid ≠ q.pid := by
        intro h
        exact hnd.1 (h ▸ List.mem_map_of_mem Player.pid hq2)
      simp [List.find?_cons, hne, ih hnd.2 hq2]

theorem setPosF_pid (v : Int) (p : Player) : (setPosF v p).pid = p.pid := rfl

theorem bumpF_pid (cid : String) (t s : Int) (p : Player) :
    (bumpF cid t s p).pid = p.pid := by
  unfold bumpF; split <;> [rfl; (split <;> rfl)]

theorem unbumpF_pid (cid : String) (t s : Int) (p : Player) :
    (unbumpF cid t s p).pid = p.pid := by
  unfold unbumpF; split <;> [rfl; (split <;> rfl)]

/-- Combined per-player effect of an applied ladder move from start
position `s` to target `t`. -/
def applyMoveF (cid : String) (t s : Int) (p : Player) : Player :=
  if p.pid = cid then setPosF t p else bumpF cid t s p

/-- Combined per-player effect of a ladder-move reversal restoring the
challenger to `s`. -/
def reverseMoveF (cid : String) (s t : Int) (p : Player) : Player :=
  if p.pid = cid then setPosF s p else unbumpF cid t s p

theorem applyMoveF_pid (cid : String) (t s : Int) (p : Player) :
    (applyMoveF cid t s p).pid = p.pid := by
  unfold applyMoveF; split <;> [rfl; exact bumpF_pid cid t s p]

theorem reverseMoveF_pid (cid : String) (s t : Int) (p : Player) :
    (reverseMoveF cid s t p).pid = p.pid := by
  unfold reverseMoveF; split <;> [rfl; exact unbumpF_pid cid t s p]

/-- Closed form of a non-applied `applyLadderMove` (challenger found at
or above the target). -/
theorem applyLadderMove_noop {ps : List Player} {cid : String} {t : Int} {c : Player}
    (hfind : ps.find? (fun p => p.pid == cid) = some c)
    (hle : c.position ≤ t) :
    applyLadderMove ps cid t = (ps, false) := by
  simp [applyLadderMove, hfind, hle]

/-- Closed form of an applied `applyLadderMove` over a roster with
pairwise-distinct pids. -/
theorem applyLadderMove_pos {ps : List Player} {cid : String} {t : Int} {c : Player}
    (hnd : (ps.map Player.pid).Nodup)
    (hfind : ps.find? (fun p => p.pid == cid) = some c)
    (hlt : t < c.position) :
    applyLadderMove ps cid t = (ps.map (applyMoveF cid t c.position), true) := by
  have hndb : ((ps.map (bumpF cid t c.position)).map Player.pid).Nodup := by
    rw [pid_map_map (bumpF_pid cid t c.position)]; exact hnd
  simp only [applyLadderMove, hfind, if_neg (not_le.mpr hlt)]
  rw [updateFirst_eq_map (setPosF t) hndb, List.map_map]
  refine Prod.ext ?_ rfl
  refine List.map_congr_left (fun p _ => ?_)
  by_cases hp : p.pid = cid
  · simp [Function.comp, bumpF, applyMoveF, hp]
  · simp only [Function.comp_apply, applyMoveF, if_neg hp]
    rw [if_neg (show ¬(bumpF cid t c.position p).pid = cid by
      rw [bumpF_pid]; exact hp)]

/-- Closed form of `reverseLadderMove` over a roster with
pairwise-distinct pids containing the challenger. -/
theorem reverseLadderMove_closed {ps : List Player} {cid : String} {s t : Int}
    {c : Player}
    (hnd : (ps.map Player.pid).Nodup)
    (hfind : ps.find? (fun p => p.pid == cid) = some c) :
    reverseLadderMove ps cid s t = ps.map (reverseMoveF cid s t) := by
  have hndb : ((ps.map (unbumpF cid t s)).map Player.pid).Nodup := by
    rw [pid_map_map (unbumpF_pid cid t s)]; exact hnd
  simp only [reverseLadderMove, hfind]
  rw [updateFirst_eq_map (setPosF s) hndb, List.map_map]
  refine List.map_congr_left (fun p _ => ?_)
  by_cases hp : p.pid = cid
  · simp [Function.comp, unbumpF, reverseMoveF, hp]
  · simp only [Function.comp_apply, reverseMoveF, if_neg hp]
    rw [if_neg (show ¬(unbumpF cid t s p).pid = cid by
      rw [unbumpF_pid]; exact hp)]

/-- Pointwise round trip: reversing with the same `(s, t)` undoes an
applied move on any player that relates to the challenger as in a
distinct-position roster (the challenger sits at `s`, nobody else does). -/
theorem roundTrip_pointwise {cid : String} {t s : Int} (p : Player)
    (_hts : t < s)
    (hc : p.pid = cid → p.position = s)
    (hnc : p.pid ≠ cid → p.position ≠ s) :
    reverseMoveF cid s t (applyMoveF cid t s p) = p := by
  obtain ⟨pid, pos, nm, f1, f2, f3, f4, f5, f6, m1, m2, m3, m4, m5⟩ := p
  simp only [applyMoveF, reverseMoveF, bumpF, unbumpF, setPosF] at *
  by_cases hp : pid = cid
  · simp only [if_pos hp]
    simp_all
  · simp only [if_neg hp]
    have hps := hnc hp
    split_ifs <;> simp_all <;> omega

/-- Round trip of the ladder engine: applying a move and reversing it
with the challenger's original position restores the roster exactly. -/
theorem reverse_apply_roundTrip {ps : List Player} {cid : String} {t : Int}
    {c : Player}
    (hndpid : (ps.map Player.pid).Nodup)
    (hndpos : (ps.map Player.position).Nodup)
    (hfind : ps.find? (fun p => p.pid == cid) = some c)
    (hlt : t < c.position) :
    reverseLadderMove (applyLadderMove ps cid t).1 cid c.position t = ps := by
  have hcmem : c ∈ ps := List.mem_of_find?_eq_some hfind
  have hcpid : c.pid = cid := by
    have h := List.find?_some hfind
    simpa [beq_iff_eq] using h
  rw [applyLadderMove_pos hndpid hfind hlt]
  have hndq : ((ps.map (applyMoveF cid t c.position)).map Player.pid).Nodup := by
    rw [pid_map_map (applyMoveF_pid cid t c.position)]; exact hndpid
  have hfind2 : (ps.map (applyMoveF cid t c.position)).find? (fun p => p.pid == cid)
      = some (applyMoveF cid t c.position c) := by
    rw [List.find?_map]
    have hpred : ((fun p => p.pid == cid) ∘ applyMoveF cid t c.position)
        = (fun p => p.pid == cid) := by
      funext q
      simp [Function.comp, applyMoveF_pid]
    rw [hpred, hfind]
    rfl
  rw [reverseLadderMove_closed hndq hfind2, List.map_map]
  have hid : ∀ p ∈ ps,
      (reverseMoveF cid c.position t ∘ applyMoveF cid t c.position) p = p := by
    intro p hmem
    refine roundTrip_pointwise p hlt ?_ ?_
    · intro hp
      have h1 := find?_pid_self hndpid hmem
      rw [hp] at h1
      rw [hfind] at h1
      cases h1
      rfl
    · intro hp hpos
      have hpc : p = c := List.inj_on_of_nodup_map hndpos hmem hcmem hpos
      exact hp (hpc ▸ hcpid)
  have hmapid : ps.map (reverseMoveF cid c.position t ∘ applyMoveF cid t c.position)
      = ps.map id := List.map_congr_left hid
  simpa using hmapid

/-! ## Test fixtures for witnesses and counterexamples -/

/-- A player record with only pid and position distinguished. -/
def samplePlayer (pid : String) (pos : Int) : Player :=
  ⟨pid, pos, pid, 0, 0, 0, 0, 0, 0, 0, 0, 0, 0, 0⟩

/-- Five named players at positions 1..5 (the spec's end-to-end roster). -/
def sampleRoster : List Player :=
  [samplePlayer "p1" 1, samplePlayer "p2" 2, samplePlayer "p3" 3,
   samplePlayer "p4" 4, samplePlayer "p5" 5]

/-! ## Claims about the ladder position engine -/

/-- **C10**: a move or reversal naming a pid absent from the roster
returns the roster with `applied = false` resp. unchanged, shifting
nobody. -/
theorem claim_C10_missing_challenger (ps : List Player) (cid : String)
    (t s u : Int) (h : ∀ p ∈ ps, p.pid ≠ cid) :
    applyLadderMove ps cid t = (ps, false) ∧ reverseLadderMove ps cid s u = ps := by
  have hfind : ps.find? (fun p => p.pid == cid) = none := by
    rw [List.find?_eq_none]
    intro p hp
    simpa [beq_iff_eq] using h p hp
  constructor <;> simp [applyLadderMove, reverseLadderMove, hfind]

/-- Witness for C10 at a concrete two-player roster and absent pid. -/
theorem claim_C10_witness :
    applyLadderMove [samplePlayer "p1" 1, samplePlayer "p2" 2] "zz" 1
        = ([samplePlayer "p1" 1, samplePlayer "p2" 2], false) ∧
      reverseLadderMove [samplePlayer "p1" 1, samplePlayer "p2" 2] "zz" 2 1
        = [samplePlayer "p1" 1, samplePlayer "p2" 2] :=
  claim_C10_missing_challenger [samplePlayer "p1" 1, samplePlayer "p2" 2] "zz" 1 2 1
    (by decide)

/-- **C5**: `applyLadderMove` is a no-op (applied = false) when the
challenger already sits at or above the target, and otherwise bumps
exactly the other players in `[targetPosition, challengerStartPos)` by
one and puts the challenger on the target (pids are pairwise distinct
per the data model). -/
theorem claim_C5_applyLadderMove_spec (ps : List Player) (cid : String) (t : Int)
    (c : Player)
    (hnd : (ps.map Player.pid).Nodup)
    (hfind : ps.find? (fun p => p.pid == cid) = some c) :
    (c.position ≤ t → applyLadderMove ps cid t = (ps, false)) ∧
      (t < c.position →
        applyLadderMove ps cid t =
          (ps.map (fun p =>
            if p.pid = cid then { p with position := t }
            else if t ≤ p.position ∧ p.position < c.position then
              { p with position := p.position + 1 }
            else p), true)) := by
  constructor
  · intro hle
    exact applyLadderMove_noop hfind hle
  · intro hlt
    rw [applyLadderMove_pos hnd hfind hlt]
    refine Prod.ext ?_ rfl
    refine List.map_congr_left (fun p _ => ?_)
    by_cases hp : p.pid = cid
    · simp [applyMoveF, setPosF, hp]
    · simp [applyMoveF, bumpF, hp]

/-- Witness for C5: the spec's end-to-end scenario (challenger at 5
plays for position 2). -/
theorem claim_C5_witness :
    applyLadderMove sampleRoster "p5" 2 =
      (sampleRoster.map (fun p =>
        if p.pid = "p5" then { p with position := 2 }
        else if 2 ≤ p.position ∧ p.position < (samplePlayer "p5" 5).position then
          { p with position := p.position + 1 }
        else p), true) :=
  (claim_C5_applyLadderMove_spec sampleRoster "p5" 2 (samplePlayer "p5" 5)
    (by decide) (by decide)).2 (by decide)

/-- **C1**: applying a ladder move and then reversing it with the same
challenger, the challenger's original position and the same target
restores every player's position (indeed the whole roster) exactly,
for rosters with pairwise-distinct positions (and the data model's
pairwise-distinct pids). -/
theorem claim_C1_round_trip (ps : List Player) (cid : String) (t : Int)
    (c : Player)
    (hndpid : (ps.map Player.pid).Nodup)
    (hndpos : (ps.map Player.position).Nodup)
    (hfind : ps.find? (fun p => p.pid == cid) = some c)
    (hlt : t < c.position) :
    reverseLadderMove (applyLadderMove ps cid t).1 cid c.position t = ps :=
  reverse_apply_roundTrip hndpid hndpos hfind hlt

/-- Witness for C1 at the five-player roster. -/
theorem claim_C1_witness :
    reverseLadderMove (applyLadderMove sampleRoster "p5" 2).1 "p5"
        (samplePlayer "p5" 5).position 2 = sampleRoster :=
  claim_C1_round_trip sampleRoster "p5" 2 (samplePlayer "p5" 5)
    (by decide) (by decide) (by decide) (by decide)

/-- Position of a player after an applied move. -/
theorem applyMoveF_position (cid : String) (t s : Int) (p : Player) :
    (applyMoveF cid t s p).position =
      if p.pid = cid then t
      else if t ≤ p.position ∧ p.position < s then p.position + 1
      else p.position := by
  unfold applyMoveF bumpF setPosF
  split_ifs <;> rfl

/-- Applied moves preserve pairwise-distinct positions. -/
theorem applyLadderMove_nodup_positions (ps : List Player) (cid : String) (t : Int)
    (hndpid : (ps.map Player.pid).Nodup)
    (hndpos : (ps.map Player.position).Nodup) :
    (((applyLadderMove ps cid t).1).map Player.position).Nodup := by
  rcases hfind : ps.find? (fun p => p.pid == cid) with _ | c
  · simp [applyLadderMove, hfind, hndpos]
  · by_cases hle : c.position ≤ t
    · rw [applyLadderMove_noop hfind hle]
      exact hndpos
    · have hlt : t < c.position := by omega
      have hcmem : c ∈ ps := List.mem_of_find?_eq_some hfind
      have hcpid : c.pid = cid := by
        have h := List.find?_some hfind
        simpa [beq_iff_eq] using h
      have hinj := List.inj_on_of_nodup_map hndpos
      have hnotc : ∀ p ∈ ps, p.pid ≠ cid → p.position ≠ c.position := by
        intro p hp hpc hpos
        exact hpc ((hinj hp hcmem hpos) ▸ hcpid)
      have hcuniq : ∀ p ∈ ps, p.pid = cid → p = c := by
        intro p hp hpc
        have h1 := find?_pid_self hndpid hp
        rw [hpc, hfind] at h1
        cases h1
        rfl
      rw [applyLadderMove_pos hndpid hfind hlt]
      simp only [List.map_map]
      refine List.Nodup.map_on ?_ (hndpos.of_map Player.position)
      intro x hx y hy hxy
      simp only [Function.comp_apply, applyMoveF_position] at hxy
      by_cases hxc : x.pid = cid <;> by_cases hyc : y.pid = cid
      · exact (hcuniq x hx hxc).trans (hcuniq y hy hyc).symm
      · have hys := hnotc y hy hyc
        rw [if_pos hxc, if_neg hyc] at hxy
        exfalso
        split_ifs at hxy <;> omega
      · have hxs := hnotc x hx hxc
        rw [if_neg hxc, if_pos hyc] at hxy
        exfalso
        split_ifs at hxy <;> omega
      · have hxs := hnotc x hx hxc
        have hys := hnotc y hy hyc
        rw [if_neg hxc, if_neg hyc] at hxy
        refine hinj hx hy ?_
        split_ifs at hxy <;> omega

/-- Drifted roster reached from `sampleRoster` by three applied moves:
p5 takes position 1, then p3 takes 1, then p2 takes 2. -/
def driftRoster : List Player :=
  (applyLadderMove
    ((applyLadderMove ((applyLadderMove sampleRoster "p5" 1).1) "p3" 1).1)
    "p2" 2).1

/-- **C6 (counterexample)**: reversing a previously applied move (p5's
move from frozen start position 5 to target 1, `applied = true`) on a
later distinct-position roster produced by further applied moves yields
two players at position 1 — `reverseLadderMove` does not preserve
position uniqueness. -/
theorem claim_C6_counterexample :
    (sampleRoster.map Player.position).Nodup ∧
      (applyLadderMove sampleRoster "p5" 1).2 = true ∧
      (sampleRoster.find? (fun p => p.pid == "p5")).map Player.position = some 5 ∧
      (applyLadderMove (applyLadderMove sampleRoster "p5" 1).1 "p3" 1).2 = true ∧
      (applyLadderMove ((applyLadderMove (applyLadderMove sampleRoster "p5" 1).1
          "p3" 1).1) "p2" 2).2 = true ∧
      (driftRoster.map Player.position).Nodup ∧
      (driftRoster.map Player.pid).Nodup ∧
      ¬((reverseLadderMove driftRoster "p5" 5 1).map Player.position).Nodup := by
  decide

/-- **C6 (amended)**: `applyLadderMove` always preserves pairwise-
distinct positions, and `reverseLadderMove` preserves them when it
reverses the move it matches, i.e. when invoked with the frozen start
positions on the roster the applied move just produced; reversal after
further moves can break uniqueness (see the counterexample). -/
theorem claim_C6_amended (ps : List Player) (cid : String) (t : Int)
    (hndpid : (ps.map Player.pid).Nodup)
    (hndpos : (ps.map Player.position).Nodup) :
    (((applyLadderMove ps cid t).1).map Player.position).Nodup ∧
      (∀ c, ps.find? (fun p => p.pid == cid) = some c → t < c.position →
        ((reverseLadderMove (applyLadderMove ps cid t).1 cid c.position t).map
            Player.position).Nodup) := by
  refine ⟨applyLadderMove_nodup_positions ps cid t hndpid hndpos, ?_⟩
  intro c hfind hlt
  rw [reverse_apply_roundTrip hndpid hndpos hfind hlt]
  exact hndpos

/-- Witness for the amended C6 at the five-player roster. -/
theorem claim_C6_amended_witness :
    (((applyLadderMove sampleRoster "p5" 2).1).map Player.position).Nodup ∧
      ((reverseLadderMove (applyLadderMove sampleRoster "p5" 2).1 "p5"
          (samplePlayer "p5" 5).position 2).map Player.position).Nodup :=
  ⟨(claim_C6_amended sampleRoster "p5" 2 (by decide) (by decide)).1,
    (claim_C6_amended sampleRoster "p5" 2 (by decide) (by decide)).2
      (samplePlayer "p5" 5) (by decide) (by decide)⟩

/-! ## Claims about the score validator -/

/-- The per-set early return is `none` exactly on legal sets in the
claim's phrasing. -/
theorem setCheckError_none_iff (s : SetPair) :
    setCheckError s = none ↔
      (0 ≤ s.p1 ∧ 0 ≤ s.p2 ∧ s.p1 ≠ s.p2 ∧
        (if 10 ≤ max s.p1 s.p2 then 2 ≤ max s.p1 s.p2 - min s.p1 s.p2
         else (max s.p1 s.p2 = 6 ∧ min s.p1 s.p2 ≤ 4) ∨
           (max s.p1 s.p2 = 7 ∧ (min s.p1 s.p2 = 5 ∨ min s.p1 s.p2 = 6)))) := by
  obtain ⟨a, b⟩ := s
  simp only [setCheckError, max_def, min_def]
  split_ifs <;> simp_all <;> omega

/-- Characterisation of the `validateSets` loop for arbitrary
accumulator values. -/
theorem validateGo_ok_iff (sets : List SetPair) (a b : Int) :
    (validateGo sets a b).ok = true ↔
      ((∀ s ∈ sets, setCheckError s = none) ∧
        a + (sets.countP (fun s => decide (s.p2 < s.p1)) : Int) ≠
          b + (sets.countP (fun s => decide (¬s.p2 < s.p1)) : Int)) := by
  induction sets generalizing a b with
  | nil =>
    simp only [validateGo, List.countP_nil]
    split_ifs with h <;> simp_all
  | cons s rest ih =>
    rcases hse : setCheckError s with _ | m
    · by_cases hgt : s.p2 < s.p1
      · have hA : (s :: rest).countP (fun x => decide (x.p2 < x.p1)) =
            rest.countP (fun x => decide (x.p2 < x.p1)) + 1 := by
          simp [List.countP_cons, hgt]
        have hB : (s :: rest).countP (fun x => decide (¬x.p2 < x.p1)) =
            rest.countP (fun x => decide (¬x.p2 < x.p1)) := by
          simp [List.countP_cons, hgt]
        have hgo : validateGo (s :: rest) a b = validateGo rest (a + 1) b := by
          simp [validateGo, hse, hgt]
        rw [hgo, ih, hA, hB]
        constructor
        · rintro ⟨h1, h2⟩
          refine ⟨?_, by push_cast at h2 ⊢; omega⟩
          intro x hx
          rcases List.mem_cons.mp hx with rfl | hx2
          · exact hse
          · exact h1 x hx2
        · rintro ⟨h1, h2⟩
          exact ⟨fun x hx => h1 x (List.mem_cons_of_mem s hx),
            by push_cast at h2 ⊢; omega⟩
      · have hA : (s :: rest).countP (fun x => decide (x.p2 < x.p1)) =
            rest.countP (fun x => decide (x.p2 < x.p1)) := by
          simp [List.countP_cons, hgt]
        have hB : (s :: rest).countP (fun x => decide (¬x.p2 < x.p1)) =
            rest.countP (fun x => decide (¬x.p2 < x.p1)) + 1 := by
          simp [List.countP_cons, hgt]
        have hgo : validateGo (s :: rest) a b = validateGo rest a (b + 1) := by
          simp [validateGo, hse, hgt]
        rw [hgo, ih, hA, hB]
        constructor
        · rintro ⟨h1, h2⟩
          refine ⟨?_, by push_cast at h2 ⊢; omega⟩
          intro x hx
          rcases List.mem_cons.mp hx with rfl | hx2
          · exact hse
          · exact h1 x hx2
        · rintro ⟨h1, h2⟩
          exact ⟨fun x hx => h1 x (List.mem_cons_of_mem s hx),
            by push_cast at h2 ⊢; omega⟩
    · have hgo : validateGo (s :: rest) a b = ⟨false, m⟩ := by
        simp [validateGo, hse]
      rw [hgo]
      constructor
      · intro h
        cases h
      · rintro ⟨h1, -⟩
        have hcontra := h1 s (List.mem_cons_self s rest)
        rw [hse] at hcontra
        cases hcontra

/-- **C2**: `validateSets` accepts exactly the sequences with at least
two sets, all of whose sets are legal per the tennis rules (non-negative
unequal sides; tie-break sets at 10+ won by two; ordinary sets 6 over
at most 4, or 7 over 5 or 6), and whose two sides win unequal numbers
of sets.  In particular every such legal sequence is accepted. -/
theorem claim_C2_validateSets_iff (sets : List SetPair) :
    (validateSets sets).ok = true ↔
      (2 ≤ sets.length ∧
        (∀ s ∈ sets,
          0 ≤ s.p1 ∧ 0 ≤ s.p2 ∧ s.p1 ≠ s.p2 ∧
            (if 10 ≤ max s.p1 s.p2 then 2 ≤ max s.p1 s.p2 - min s.p1 s.p2
             else (max s.p1 s.p2 = 6 ∧ min s.p1 s.p2 ≤ 4) ∨
               (max s.p1 s.p2 = 7 ∧ (min s.p1 s.p2 = 5 ∨ min s.p1 s.p2 = 6)))) ∧
        sets.countP (fun s => decide (s.p2 < s.p1)) ≠
          sets.countP (fun s => decide (s.p1 < s.p2))) := by
  unfold validateSets
  split_ifs with hlen
  · constructor
    · intro h
      exact absurd h (by decide)
    · rintro ⟨h2, -⟩
      exact absurd h2 (by omega)
  · rw [validateGo_ok_iff]
    have hlen2 : 2 ≤ sets.length := by omega
    constructor
    · rintro ⟨h1, h2⟩
      refine ⟨hlen2, fun s hs => (setCheckError_none_iff s).mp (h1 s hs), ?_⟩
      have hcongr : sets.countP (fun s => decide (¬s.p2 < s.p1)) =
          sets.countP (fun s => decide (s.p1 < s.p2)) := by
        refine List.countP_congr (fun s hs => ?_)
        have hgood := (setCheckError_none_iff s).mp (h1 s hs)
        simp only [decide_eq_true_eq]
        omega
      rw [hcongr] at h2
      intro heq
      exact h2 (by omega)
    · rintro ⟨-, h1, h2⟩
      refine ⟨fun s hs => (setCheckError_none_iff s).mpr (h1 s hs), ?_⟩
      have hcongr : sets.countP (fun s => decide (¬s.p2 < s.p1)) =
          sets.countP (fun s => decide (s.p1 < s.p2)) := by
        refine List.countP_congr (fun s hs => ?_)
        have hgood := h1 s hs
        simp only [decide_eq_true_eq]
        omega
      rw [hcongr]
      intro hbad
      exact h2 (by omega)

/-- Witness for C2 at the spec's example `6-4 6-3`. -/
theorem claim_C2_witness :
    (validateSets [⟨6, 4⟩, ⟨6, 3⟩]).ok = true ∧
      (validateSets [⟨6, 5⟩, ⟨6, 3⟩]).ok = false :=
  ⟨(claim_C2_validateSets_iff [⟨6, 4⟩, ⟨6, 3⟩]).mpr (by decide),
    by
      have h := claim_C2_validateSets_iff [⟨6, 5⟩, ⟨6, 3⟩]
      revert h
      decide⟩

/-- **C8 (counterexample)**: the claim calls `validate([6,4])` (and
`[7,5]`, `[7,6]`, `[10,8]`) accepted, but every single-set input is
rejected by `validateSets` — it requires at least two sets. -/
theorem claim_C8_counterexample :
    (validateSets [⟨6, 4⟩]).ok = false ∧
      (validateSets [⟨6, 4⟩]).message = msgMin2 ∧
      (validateSets [⟨7, 5⟩]).ok = false ∧
      (validateSets [⟨7, 6⟩]).ok = false ∧
      (validateSets [⟨10, 8⟩]).ok = false := by
  decide

/-- **C8 (amended)**: single-set inputs are always rejected (fewer than
two sets); the listed verdicts hold as per-set legality — the per-set
check rejects 6-5 (impossible set) and 10-9 (tie-break not won by two)
and passes 6-4, 7-5, 7-6, 10-8 — and embedding each set twice in a
two-set match, `validateSets` accepts exactly the legal ones. -/
theorem claim_C8_amended :
    ((validateSets [⟨6, 5⟩]).ok = false ∧ (validateSets [⟨6, 4⟩]).ok = false ∧
      (validateSets [⟨7, 5⟩]).ok = false ∧ (validateSets [⟨7, 6⟩]).ok = false ∧
      (validateSets [⟨10, 8⟩]).ok = false ∧ (validateSets [⟨10, 9⟩]).ok = false) ∧
    (setCheckError ⟨6, 5⟩ = some msgImpossible ∧ setCheckError ⟨6, 4⟩ = none ∧
      setCheckError ⟨7, 5⟩ = none ∧ setCheckError ⟨7, 6⟩ = none ∧
      setCheckError ⟨10, 8⟩ = none ∧ setCheckError ⟨10, 9⟩ = some msgTieBreak) ∧
    ((validateSets [⟨6, 5⟩, ⟨6, 5⟩]).ok = false ∧
      (validateSets [⟨6, 4⟩, ⟨6, 4⟩]).ok = true ∧
      (validateSets [⟨7, 5⟩, ⟨7, 5⟩]).ok = true ∧
      (validateSets [⟨7, 6⟩, ⟨7, 6⟩]).ok = true ∧
      (validateSets [⟨10, 8⟩, ⟨10, 8⟩]).ok = true ∧
      (validateSets [⟨10, 9⟩, ⟨10, 9⟩]).ok = false) := by
  decide

/-! ## Claims about the score parser -/

theorem splitOnChar_ne_nil (sep : Char) (l : List Char) :
    splitOnChar sep l ≠ [] := by
  cases l with
  | nil => simp [splitOnChar]
  | cons c rest =>
    simp only [splitOnChar]
    split
    · simp
    · split <;> simp

theorem splitOnChar_of_not_mem {sep : Char} {l : List Char} (h : sep ∉ l) :
    splitOnChar sep l = [l] := by
  induction l with
  | nil => rfl
  | cons c rest ih =>
    have hc : c ≠ sep := fun hc => h (hc ▸ List.mem_cons_self c rest)
    have hrest : sep ∉ rest := fun hr => h (List.mem_cons_of_mem c hr)
    simp [splitOnChar, ih hrest, hc]

theorem splitOnChar_append {sep : Char} {a : List Char} (b : List Char)
    (ha : sep ∉ a) :
    splitOnChar sep (a ++ sep :: b) = a :: splitOnChar sep b := by
  induction a with
  | nil =>
    rcases h : splitOnChar sep b with _ | ⟨t, ts⟩
    · exact absurd h (splitOnChar_ne_nil sep b)
    · simp [splitOnChar, h]
  | cons c a2 ih =>
    have hc : c ≠ sep := fun hc => ha (hc ▸ List.mem_cons_self c a2)
    have ha2 : sep ∉ a2 := fun hr => ha (List.mem_cons_of_mem c hr)
    simp [splitOnChar, ih ha2, hc]

theorem splitOnChar_eq_single {sep : Char} {l x : List Char}
    (h : splitOnChar sep l = [x]) : l = x ∧ sep ∉ x := by
  induction l generalizing x with
  | nil =>
    simp only [splitOnChar, List.cons.injEq] at h
    exact ⟨h.1, h.1 ▸ List.not_mem_nil sep⟩
  | cons c rest ih =>
    rcases hsplit : splitOnChar sep rest with _ | ⟨t, ts⟩
    · exact absurd hsplit (splitOnChar_ne_nil sep rest)
    · simp only [splitOnChar, hsplit] at h
      by_cases hc : c = sep
      · rw [if_pos hc] at h
        cases h
      · rw [if_neg hc] at h
        simp only [List.cons.injEq] at h
        obtain ⟨h1, h2⟩ := h
        have hr := ih (x := t) (by rw [hsplit, h2])
        subst h1
        refine ⟨by rw [hr.1], ?_⟩
        intro hmem
        rcases List.mem_cons.mp hmem with h3 | h3
        · exact hc h3.symm
        · exact hr.2 h3

theorem splitOnChar_eq_pair {sep : Char} {l a b : List Char}
    (h : splitOnChar sep l = [a, b]) :
    l = a ++ sep :: b ∧ sep ∉ a ∧ sep ∉ b := by
  induction l generalizing a with
  | nil => simp [splitOnChar] at h
  | cons c rest ih =>
    rcases hsplit : splitOnChar sep rest with _ | ⟨t, ts⟩
    · exact absurd hsplit (splitOnChar_ne_nil sep rest)
    · simp only [splitOnChar, hsplit] at h
      by_cases hc : c = sep
      · rw [if_pos hc] at h
        simp only [List.cons.injEq] at h
        obtain ⟨ha, hb, hts⟩ := h
        have hr := splitOnChar_eq_single (x := b) (by rw [hsplit, hb, hts])
        subst ha hc
        simp [hr.1, hr.2]
      · rw [if_neg hc] at h
        simp only [List.cons.injEq] at h
        obtain ⟨h1, h2⟩ := h
        have hr := ih (a := t) (by rw [hsplit, h2])
        subst h1
        refine ⟨by simp [hr.1], ?_, hr.2.2⟩
        intro hmem
        rcases List.mem_cons.mp hmem with h3 | h3
        · exact hc h3.symm
        · exact hr.2.1 h3

theorem mem_dropWhile_of_not {p : Char → Bool} {c : Char} {l : List Char}
    (hc : p c = false) (h : c ∈ l) : c ∈ l.dropWhile p := by
  induction l with
  | nil => cases h
  | cons x rest ih =>
    by_cases hx : p x
    · rw [List.dropWhile_cons_of_pos hx]
      rcases List.mem_cons.mp h with rfl | h2
      · rw [hx] at hc; cases hc
      · exact ih h2
    · rw [List.dropWhile_cons_of_neg hx]
      exact h

/-- Trimming only removes whitespace: non-whitespace members survive. -/
theorem mem_trimChars {c : Char} {l : List Char}
    (hc : c.isWhitespace = false) (h : c ∈ l) : c ∈ trimChars l := by
  unfold trimChars dropTrailingWs
  rw [List.mem_reverse]
  refine mem_dropWhile_of_not hc ?_
  rw [List.mem_reverse]
  exact mem_dropWhile_of_not hc h

theorem digitsVal_isSome {ds : List Char} (h : (digitsVal ds).isSome = true) :
    ds ≠ [] ∧ ds.all Char.isDigit = true := by
  unfold digitsVal at h
  split_ifs at h with hcond
  · exact hcond
  · cases h

/-- A field that `Number` coerces to a finite value contains no
character other than whitespace, a sign, or digits; in particular no
`:` and, except as a leading sign, no stray symbol. -/
theorem jsStrToNumber_isSome_not_mem {l : List Char} {c : Char}
    (hws : c.isWhitespace = false) (hd : c.isDigit = false)
    (hplus : c ≠ '+') (hminus : c ≠ '-')
    (h : (jsStrToNumber l).isSome = true) : c ∉ l := by
  intro hmem
  have hmem2 : c ∈ trimChars l := mem_trimChars hws hmem
  unfold jsStrToNumber at h
  split at h
  · next heq =>
      rw [heq] at hmem2
      cases hmem2
  · next ds heq =>
      rw [heq] at hmem2
      obtain ⟨-, hall⟩ := digitsVal_isSome h
      rcases List.mem_cons.mp hmem2 with rfl | h3
      · exact hplus rfl
      · rw [List.all_eq_true] at hall
        rw [hall c h3] at hd
        cases hd
  · next ds heq =>
      rw [heq] at hmem2
      rw [Option.isSome_map'] at h
      obtain ⟨-, hall⟩ := digitsVal_isSome h
      rcases List.mem_cons.mp hmem2 with rfl | h3
      · exact hminus rfl
      · rw [List.all_eq_true] at hall
        rw [hall c h3] at hd
        cases hd
  · obtain ⟨-, hall⟩ := digitsVal_isSome h
    rw [List.all_eq_true] at hall
    rw [hall c hmem2] at hd
    cases hd

/-- Characterisation of token acceptance: the parser accepts a token
exactly when it is two `Number`-coercible fields around a single `-`
or `:` separator, with no further separator occurrences anywhere. -/
theorem parseSetToken_isSome_iff (t : List Char) :
    (parseSetToken t).isSome = true ↔
      ∃ a b : List Char,
        ((t = a ++ '-' :: b) ∨ (t = a ++ ':' :: b)) ∧
          '-' ∉ a ∧ '-' ∉ b ∧ ':' ∉ a ∧ ':' ∉ b ∧
          (jsStrToNumber a).isSome = true ∧ (jsStrToNumber b).isSome = true := by
  have hcolonfacts : (':' : Char).isWhitespace = false ∧ (':' : Char).isDigit = false ∧
      (':' : Char) ≠ '+' ∧ (':' : Char) ≠ '-' := by decide
  constructor
  · intro h
    unfold parseSetToken at h
    split_ifs at h with hdash hcolon
    · revert h
      split
      · next a b heq =>
        intro h
        split at h
        · next x y hx hy =>
          obtain ⟨ht, hna, hnb⟩ := splitOnChar_eq_pair heq
          have hsa : (jsStrToNumber a).isSome = true := by rw [hx]; rfl
          have hsb : (jsStrToNumber b).isSome = true := by rw [hy]; rfl
          refine ⟨a, b, Or.inl ht, hna, hnb, ?_, ?_, hsa, hsb⟩
          · exact jsStrToNumber_isSome_not_mem hcolonfacts.1 hcolonfacts.2.1
              hcolonfacts.2.2.1 hcolonfacts.2.2.2 hsa
          · exact jsStrToNumber_isSome_not_mem hcolonfacts.1 hcolonfacts.2.1
              hcolonfacts.2.2.1 hcolonfacts.2.2.2 hsb
        · cases h
      · intro h
        cases h
    · have hnodash : '-' ∉ t := fun hm => hdash (List.elem_iff.mpr hm)
      revert h
      split
      · next a b heq =>
        intro h
        split at h
        · next x y hx hy =>
          obtain ⟨ht, hna, hnb⟩ := splitOnChar_eq_pair heq
          have hda : '-' ∉ a := fun hm =>
            hnodash (ht ▸ List.mem_append_left _ hm)
          have hdb : '-' ∉ b := fun hm =>
            hnodash (ht ▸ List.mem_append_right _ (List.mem_cons_of_mem _ hm))
          exact ⟨a, b, Or.inr ht, hda, hdb, hna, hnb, by rw [hx]; rfl, by rw [hy]; rfl⟩
        · cases h
      · intro h
        cases h
    · cases h
  · rintro ⟨a, b, hsep, hda, hdb, hca, hcb, hsa, hsb⟩
    obtain ⟨x, hx⟩ := Option.isSome_iff_exists.mp hsa
    obtain ⟨y, hy⟩ := Option.isSome_iff_exists.mp hsb
    rcases hsep with ht | ht
    · have hdash : t.contains '-' = true :=
        List.elem_iff.mpr (ht ▸ List.mem_append_right a (List.mem_cons_self _ _))
      have hsplit : splitOnChar '-' t = [a, b] := by
        rw [ht, splitOnChar_append b hda, splitOnChar_of_not_mem hdb]
      unfold parseSetToken
      rw [if_pos hdash, hsplit]
      simp [hx, hy]
    · have hdash : ¬t.contains '-' = true := fun hc => by
        rcases List.mem_append.mp (ht ▸ List.elem_iff.mp hc) with hm | hm
        · exact hda hm
        · rcases List.mem_cons.mp hm with hm2 | hm2
          · cases hm2
          · exact hdb hm2
      have hcolon : t.contains ':' = true :=
        List.elem_iff.mpr (ht ▸ List.mem_append_right a (List.mem_cons_self _ _))
      have hsplit : splitOnChar ':' t = [a, b] := by
        rw [ht, splitOnChar_append b hca, splitOnChar_of_not_mem hcb]
      unfold parseSetToken
      rw [if_neg hdash, if_pos hcolon, hsplit]
      simp [hx, hy]

/-- A successful parse run means every token parsed. -/
theorem parseTokens_ok_mem {toks : List (List Char)} {sets : List SetPair}
    (h : parseTokens toks = .ok sets) :
    ∀ t ∈ toks, (parseSetToken t).isSome = true := by
  induction toks generalizing sets with
  | nil =>
    intro t ht
    cases ht
  | cons t0 ts ih =>
    intro t ht
    unfold parseTokens at h
    rcases hp : parseSetToken t0 with _ | sp
    · rw [hp] at h
      cases h
    · rw [hp] at h
      rcases hrec : parseTokens ts with e | rest
      · rw [hrec] at h
        cases h
      · rcases List.mem_cons.mp ht with rfl | ht2
        · rw [hp]
          rfl
        · exact ih hrec t ht2

/-- The loop aborts at the first failing token with that token's
message. -/
theorem parseTokens_first_bad {pre : List (List Char)} (t0 : List Char)
    (rest : List (List Char))
    (hpre : ∀ t ∈ pre, (parseSetToken t).isSome = true)
    (hbad : parseSetToken t0 = none) :
    parseTokens (pre ++ t0 :: rest) = .error (msgBadToken (String.mk t0)) := by
  induction pre with
  | nil => simp [parseTokens, hbad]
  | cons t1 pre2 ih =>
    have h1 := hpre t1 (List.mem_cons_self t1 pre2)
    obtain ⟨sp, hsp⟩ := Option.isSome_iff_exists.mp h1
    have ih2 := ih (fun t ht => hpre t (List.mem_cons_of_mem t1 ht))
    simp [parseTokens, hsp, ih2]

/-- **C9**: every token of an accepted score has exactly one `-` or `:`
separator with a `Number`-coercible field on each side; a token
violating this makes `parseScore` fail with a message naming the first
offending token and produce no set pairs; and token acceptance is
exactly the one-separator/numeric-fields shape. -/
theorem claim_C9_parseScore_tokens (s : String) :
    ((parseScore s).valid = true →
      ∀ t ∈ scoreTokens s, (parseSetToken t).isSome = true) ∧
      (∀ pre t0 rest, scoreTokens s = pre ++ t0 :: rest →
        (∀ t ∈ pre, (parseSetToken t).isSome = true) →
        parseSetToken t0 = none →
        (parseScore s).valid = false ∧
          (parseScore s).message = msgBadToken (String.mk t0) ∧
          (parseScore s).sets = []) ∧
      (∀ t : List Char, (parseSetToken t).isSome = true ↔
        ∃ a b : List Char,
          ((t = a ++ '-' :: b) ∨ (t = a ++ ':' :: b)) ∧
            '-' ∉ a ∧ '-' ∉ b ∧ ':' ∉ a ∧ ':' ∉ b ∧
            (jsStrToNumber a).isSome = true ∧ (jsStrToNumber b).isSome = true) := by
  refine ⟨?_, ?_, parseSetToken_isSome_iff⟩
  · intro hvalid t ht
    unfold parseScore at hvalid
    by_cases htrim : trimChars s.data = []
    · rw [if_pos htrim] at hvalid
      simp at hvalid
    · rw [if_neg htrim] at hvalid
      rcases hpt : parseTokens (scoreTokens s) with e | sets
      · rw [hpt] at hvalid
        simp at hvalid
      · exact parseTokens_ok_mem hpt t ht
  · intro pre t0 rest hdecomp hpre hbad
    have herr : parseTokens (scoreTokens s) = .error (msgBadToken (String.mk t0)) := by
      rw [hdecomp]
      exact parseTokens_first_bad t0 rest hpre hbad
    by_cases htrim : trimChars s.data = []
    · have htoks : scoreTokens s = [] := by
        simp [scoreTokens, htrim, squeezeSpaces, splitOnChar]
      rw [htoks] at hdecomp
      simp at hdecomp
    · refine ⟨?_, ?_, ?_⟩ <;> simp [parseScore, htrim, herr]

/-- Witness for C9: `"6-4 xx"` fails naming the token `xx` and yields
no sets. -/
theorem claim_C9_witness :
    (parseScore "6-4 xx").valid = false ∧
      (parseScore "6-4 xx").message = msgBadToken (String.mk ['x', 'x']) ∧
      (parseScore "6-4 xx").sets = [] :=
  (claim_C9_parseScore_tokens "6-4 xx").2.1 [['6', '-', '4']] ['x', 'x'] []
    (by decide) (by decide) (by decide)

/-! ## Claims about the delete transaction -/

/-- **C7**: deleting an existing match always removes its record from
the log; the two participants' statistic deltas are reversed (clamped
at 0 via `subStatsF`) exactly when the stored score re-parses and
re-validates, and skipped entirely otherwise; the ladder reversal runs
exactly when `ladderMoveApplied` is set, independently of the stored
score's validity. -/
theorem claim_C7_delete_spec (S : AppState) (id : String) (M : MatchRecord)
    (hfind : S.«matches».find? (fun m => m.id == id) = some M) :
    (deleteMatch S id).playerCount = S.playerCount ∧
      (deleteMatch S id).«matches» = S.«matches».filter (fun m => ¬(m.id == id)) ∧
      ((parseScore M.score).valid = true ∧
          (validateSets (parseScore M.score).sets).ok = true →
        (deleteMatch S id).players =
          (if M.ladderMoveApplied then
            reverseLadderMove
              (S.players.map (subStatsF M (computeFromSets (parseScore M.score).sets)
                (monthKeyFromDateISO M.date)))
              M.challengerPid M.challengerStartPos M.opponentStartPos
          else
            S.players.map (subStatsF M (computeFromSets (parseScore M.score).sets)
              (monthKeyFromDateISO M.date)))) ∧
      (¬((parseScore M.score).valid = true ∧
          (validateSets (parseScore M.score).sets).ok = true) →
        (deleteMatch S id).players =
          (if M.ladderMoveApplied then
            reverseLadderMove S.players M.challengerPid M.challengerStartPos
              M.opponentStartPos
          else S.players)) := by
  refine ⟨?_, ?_, ?_, ?_⟩
  · simp [deleteMatch, hfind]
  · simp [deleteMatch, hfind]
  · intro hv
    simp only [deleteMatch, hfind, if_pos hv]
  · intro hv
    simp only [deleteMatch, hfind, if_neg hv]

/-- A stored match whose score text no longer parses, with an applied
ladder move on record. -/
def sampleMatchBad : MatchRecord :=
  ⟨"m1", "2026-04-05", 1, "p2", "p1", "p1", "bad", "Clay", 2, 1, true⟩

/-- Two-player snapshot holding the corrupted match. -/
def sampleStateDel : AppState :=
  ⟨5, [samplePlayer "p1" 1, samplePlayer "p2" 2], [sampleMatchBad]⟩

/-- Witness for C7: the corrupted-score match is removed, statistics
stay untouched, and the recorded ladder move is still reversed. -/
theorem claim_C7_witness :
    (deleteMatch sampleStateDel "m1").«matches» = [] ∧
      (deleteMatch sampleStateDel "m1").players =
        reverseLadderMove sampleStateDel.players "p2" 2 1 := by
  have h := claim_C7_delete_spec sampleStateDel "m1" sampleMatchBad (by decide)
  refine ⟨?_, ?_⟩
  · rw [h.2.1]
    decide
  · have h4 := h.2.2.2 (by decide)
    simpa [sampleMatchBad] using h4

/-! ## Statistic-delta toolkit -/

theorem addStatsF_pid (chPid opPid w : String) (tot : SetsTotals)
    (mk : Option MonthKey) (p : Player) :
    (addStatsF chPid opPid w tot mk p).pid = p.pid := by
  unfold addStatsF
  split_ifs
  · rfl
  · rcases mk with _ | k
    · rfl
    · cases k <;> rfl

theorem subStatsF_pid (m : MatchRecord) (tot : SetsTotals) (mk : Option MonthKey)
    (p : Player) : (subStatsF m tot mk p).pid = p.pid := by
  unfold subStatsF
  split_ifs
  · rfl
  · rcases mk with _ | k
    · rfl
    · cases k <;> rfl

theorem deltaStatsF_pid (m : MatchRecord) (tot : SetsTotals) (mk : Option MonthKey)
    (dir : Int) (p : Player) : (deltaStatsF m tot mk dir p).pid = p.pid := by
  unfold deltaStatsF
  split_ifs
  · rfl
  · rcases mk with _ | k
    · rfl
    · cases k <;> rfl

theorem addStatsF_position (chPid opPid w : String) (tot : SetsTotals)
    (mk : Option MonthKey) (p : Player) :
    (addStatsF chPid opPid w tot mk p).position = p.position := by
  unfold addStatsF
  split_ifs
  · rfl
  · rcases mk with _ | k
    · rfl
    · cases k <;> rfl

theorem subStatsF_position (m : MatchRecord) (tot : SetsTotals) (mk : Option MonthKey)
    (p : Player) : (subStatsF m tot mk p).position = p.position := by
  unfold subStatsF
  split_ifs
  · rfl
  · rcases mk with _ | k
    · rfl
    · cases k <;> rfl

theorem deltaStatsF_position (m : MatchRecord) (tot : SetsTotals) (mk : Option MonthKey)
    (dir : Int) (p : Player) : (deltaStatsF m tot mk dir p).position = p.position := by
  unfold deltaStatsF
  split_ifs
  · rfl
  · rcases mk with _ | k
    · rfl
    · cases k <;> rfl

/-- Statistic reversal commutes with position assignment (it never
reads or writes `position`). -/
theorem subStatsF_setPos (m : MatchRecord) (tot : SetsTotals) (mk : Option MonthKey)
    (q : Player) (v : Int) :
    subStatsF m tot mk { q with position := v } =
      { subStatsF m tot mk q with position := v } := by
  obtain ⟨pid, pos, nm, mp, mw, sw, sl, gw, gl, a1, a2, a3, a4, a5⟩ := q
  rcases mk with _ | k
  · simp only [subStatsF]
    split_ifs <;> rfl
  · cases k <;> (simp only [subStatsF, setMonth, getMonth]; split_ifs <;> rfl)

set_option maxHeartbeats 2000000 in
/-- Clamped reversal undoes the add-side increment on non-negative
counters with non-negative deltas. -/
theorem subStatsF_addStatsF (m : MatchRecord) (tot : SetsTotals)
    (mk : Option MonthKey) (q : Player)
    (hq : 0 ≤ q.matchesPlayed ∧ 0 ≤ q.matchesWon ∧ 0 ≤ q.setsWon ∧
      0 ≤ q.setsLost ∧ 0 ≤ q.gamesWon ∧ 0 ≤ q.gamesLost ∧ 0 ≤ q.apr ∧
      0 ≤ q.may ∧ 0 ≤ q.jun ∧ 0 ≤ q.jul ∧ 0 ≤ q.aug)
    (htot : 0 ≤ tot.p1Sets ∧ 0 ≤ tot.p2Sets ∧ 0 ≤ tot.p1Games ∧ 0 ≤ tot.p2Games) :
    subStatsF m tot mk
      (addStatsF m.challengerPid m.opponentPid m.winnerId tot mk q) = q := by
  obtain ⟨pid, pos, nm, mp, mw, sw, sl, gw, gl, a1, a2, a3, a4, a5⟩ := q
  obtain ⟨t1, t2, t3, t4⟩ := tot
  rcases mk with _ | k
  · simp only [addStatsF, subStatsF] at *
    split_ifs <;> simp_all [clampMin0]
  · cases k <;>
      (simp only [addStatsF, subStatsF, setMonth, getMonth] at *
       split_ifs <;> simp_all [clampMin0])

/-- A move's per-player effect only assigns the position field. -/
theorem applyMoveF_only_position (cid : String) (t s : Int) (q : Player) :
    { q with position := (applyMoveF cid t s q).position } = applyMoveF cid t s q := by
  unfold applyMoveF bumpF setPosF
  split_ifs <;> rfl

/-- Pointwise add-then-delete round trip for a player when the add
applied a ladder move from start `s` to target `t`. -/
theorem add_del_pointwise_moved (m : MatchRecord) (tot : SetsTotals)
    (mk : Option MonthKey) (s t : Int) (q : Player)
    (hq : 0 ≤ q.matchesPlayed ∧ 0 ≤ q.matchesWon ∧ 0 ≤ q.setsWon ∧
      0 ≤ q.setsLost ∧ 0 ≤ q.gamesWon ∧ 0 ≤ q.gamesLost ∧ 0 ≤ q.apr ∧
      0 ≤ q.may ∧ 0 ≤ q.jun ∧ 0 ≤ q.jul ∧ 0 ≤ q.aug)
    (htot : 0 ≤ tot.p1Sets ∧ 0 ≤ tot.p2Sets ∧ 0 ≤ tot.p1Games ∧ 0 ≤ tot.p2Games)
    (hts : t < s)
    (hcpos : q.pid = m.challengerPid → q.position = s)
    (hncpos : q.pid ≠ m.challengerPid → q.position ≠ s) :
    reverseMoveF m.challengerPid s t
      (subStatsF m tot mk
        { addStatsF m.challengerPid m.opponentPid m.winnerId tot mk q with
            position := (applyMoveF m.challengerPid t s q).position }) = q := by
  have hpos : (addStatsF m.challengerPid m.opponentPid m.winnerId tot mk q).position
      = q.position := addStatsF_position _ _ _ _ _ _
  have hstep :
      ({ addStatsF m.challengerPid m.opponentPid m.winnerId tot mk q with
          position := (applyMoveF m.challengerPid t s q).position } : Player) =
        { addStatsF m.challengerPid m.opponentPid m.winnerId tot mk q with
            position := (applyMoveF m.challengerPid t s
              { q with position :=
                (addStatsF m.challengerPid m.opponentPid m.winnerId tot mk q).position }).position } := by
    rw [hpos]
  rw [subStatsF_setPos, subStatsF_addStatsF m tot mk q hq htot,
    applyMoveF_only_position]
  exact roundTrip_pointwise q hts hcpos hncpos

/-! ## Stored-score round trip: trimming is idempotent -/

theorem dropWhile_head_false {p : Char → Bool} {l : List Char} {c : Char}
    {rest : List Char} (h : l.dropWhile p = c :: rest) : p c = false := by
  induction l with
  | nil => cases h
  | cons x xs ih =>
    by_cases hx : p x
    · rw [List.dropWhile_cons_of_pos hx] at h
      exact ih h
    · rw [List.dropWhile_cons_of_neg hx] at h
      cases h
      exact Bool.not_eq_true _ ▸ (by simpa using hx)

theorem dropTrailingWs_prefix (l : List Char) : dropTrailingWs l <+: l := by
  unfold dropTrailingWs
  have h := List.dropWhile_suffix (l := l.reverse) (p := Char.isWhitespace)
  have h2 := List.IsSuffix.reverse h
  rwa [List.reverse_reverse] at h2

theorem trimChars_head_false {l : List Char} {c : Char} {rest : List Char}
    (h : trimChars l = c :: rest) : c.isWhitespace = false := by
  unfold trimChars at h
  obtain ⟨tail, htail⟩ := dropTrailingWs_prefix (l.dropWhile Char.isWhitespace)
  rw [h] at htail
  exact dropWhile_head_false htail.symm

theorem trimChars_reverse_head_false {l : List Char} {c : Char} {rest : List Char}
    (h : (trimChars l).reverse = c :: rest) : c.isWhitespace = false := by
  unfold trimChars dropTrailingWs at h
  rw [List.reverse_reverse] at h
  exact dropWhile_head_false h

/-- JS `trim` is idempotent. -/
theorem trimChars_idem (l : List Char) : trimChars (trimChars l) = trimChars l := by
  have h1 : (trimChars l).dropWhile Char.isWhitespace = trimChars l := by
    rcases h : trimChars l with _ | ⟨c, rest⟩
    · rfl
    · exact List.dropWhile_cons_of_neg (by simp [trimChars_head_false h])
  have h2 : dropTrailingWs (trimChars l) = trimChars l := by
    unfold dropTrailingWs
    rcases h : (trimChars l).reverse with _ | ⟨c, rest⟩
    · have hnil : trimChars l = [] := by
        rw [← List.reverse_reverse (trimChars l), h]
        rfl
      simp only [List.dropWhile_nil, List.reverse_nil, hnil]
    · rw [List.dropWhile_cons_of_neg (by simp [trimChars_reverse_head_false h])]
      rw [← h, List.reverse_reverse]
  calc trimChars (trimChars l)
      = dropTrailingWs ((trimChars l).dropWhile Char.isWhitespace) := rfl
    _ = dropTrailingWs (trimChars l) := by rw [h1]
    _ = trimChars l := h2

/-- Re-parsing the stored (trimmed) score text gives the same result as
parsing the submitted text. -/
theorem parseScore_stored (s : String) :
    parseScore (String.mk (trimChars s.data)) = parseScore s := by
  unfold parseScore scoreTokens
  rw [show (String.mk (trimChars s.data)).data = trimChars s.data from rfl,
    trimChars_idem]

/-- Validated set sequences have non-negative entries. -/
theorem validateSets_ok_nonneg {sets : List SetPair}
    (h : (validateSets sets).ok = true) :
    ∀ s ∈ sets, 0 ≤ s.p1 ∧ 0 ≤ s.p2 := by
  intro s hs
  unfold validateSets at h
  by_cases hlen : sets.length < 2
  · rw [if_pos hlen] at h
    simp at h
  · rw [if_neg hlen] at h
    have h1 := ((validateGo_ok_iff sets 0 0).mp h).1 s hs
    have h2 := (setCheckError_none_iff s).mp h1
    exact ⟨h2.1, h2.2.1⟩

/-- Totals of a non-negative set sequence are non-negative. -/
theorem computeFromSets_nonneg {sets : List SetPair}
    (h : ∀ s ∈ sets, 0 ≤ s.p1 ∧ 0 ≤ s.p2) :
    0 ≤ (computeFromSets sets).p1Sets ∧ 0 ≤ (computeFromSets sets).p2Sets ∧
      0 ≤ (computeFromSets sets).p1Games ∧ 0 ≤ (computeFromSets sets).p2Games := by
  induction sets with
  | nil => simp [computeFromSets]
  | cons s rest ih =>
    have hs := h s (List.mem_cons_self s rest)
    have ihr := ih (fun x hx => h x (List.mem_cons_of_mem s hx))
    simp only [computeFromSets]
    refine ⟨?_, ?_, ?_, ?_⟩
    · split_ifs <;> omega
    · split_ifs <;> omega
    · omega
    · omega

/-! ## Claims about the add/delete transactions -/

set_option maxHeartbeats 2000000 in
theorem delete_players_moved (S : AppState) (p1 p2 : Player) (w : String)
    (tot : SetsTotals) (mk : Option MonthKey) (m : MatchRecord)
    (hndpid : (S.players.map Player.pid).Nodup)
    (hndpos : (S.players.map Player.position).Nodup)
    (hnonneg : ∀ q ∈ S.players, 0 ≤ q.matchesPlayed ∧ 0 ≤ q.matchesWon ∧
      0 ≤ q.setsWon ∧ 0 ≤ q.setsLost ∧ 0 ≤ q.gamesWon ∧ 0 ≤ q.gamesLost ∧
      0 ≤ q.apr ∧ 0 ≤ q.may ∧ 0 ≤ q.jun ∧ 0 ≤ q.jul ∧ 0 ≤ q.aug)
    (hmem1 : p1 ∈ S.players)
    (hmch : m.challengerPid = p1.pid) (hmop : m.opponentPid = p2.pid)
    (hmw : m.winnerId = w)
    (htot : 0 ≤ tot.p1Sets ∧ 0 ≤ tot.p2Sets ∧ 0 ≤ tot.p1Games ∧ 0 ≤ tot.p2Games)
    (hlt : p2.position < p1.position) :
    reverseLadderMove
      (((S.players.map (addStatsF p1.pid p2.pid w tot mk)).map
          (fun p =>
            match (S.players.map (applyMoveF p1.pid p2.position p1.position)).find?
                (fun x => x.pid == p.pid) with
            | some a => { p with position := a.position }
            | none => p)).map (subStatsF m tot mk))
      p1.pid p1.position p2.position = S.players := by
  rw [← hmch, ← hmop, ← hmw]
  have hfindp1 : S.players.find? (fun p => p.pid == m.challengerPid) = some p1 := by
    rw [hmch]
    exact find?_pid_self hndpid hmem1
  rw [List.map_map, List.map_map]
  have h1 : ∀ q ∈ S.players,
      ((subStatsF m tot mk ∘
        (fun p =>
          match (S.players.map (applyMoveF m.challengerPid p2.position p1.position)).find?
              (fun x => x.pid == p.pid) with
          | some a => { p with position := a.position }
          | none => p)) ∘ addStatsF m.challengerPid m.opponentPid m.winnerId tot mk) q
      = (subStatsF m tot mk ∘ fun q =>
          { addStatsF m.challengerPid m.opponentPid m.winnerId tot mk q with
              position := (applyMoveF m.challengerPid p2.position p1.position q).position }) q := by
    intro q hq
    simp only [Function.comp_apply, addStatsF_pid]
    rw [List.find?_map]
    rw [show ((fun x => x.pid == q.pid) ∘ applyMoveF m.challengerPid p2.position p1.position)
        = (fun x => x.pid == q.pid) from funext fun x => by
          simp [Function.comp, applyMoveF_pid]]
    rw [find?_pid_self hndpid hq]
    rfl
  rw [List.map_congr_left h1]
  have hGpid : ∀ x : Player,
      ((subStatsF m tot mk ∘ fun q =>
        { addStatsF m.challengerPid m.opponentPid m.winnerId tot mk q with
            position := (applyMoveF m.challengerPid p2.position p1.position q).position }) x).pid
      = x.pid := by
    intro x
    simp [Function.comp, subStatsF_pid, addStatsF_pid]
  have hnd2 := hndpid
  rw [show S.players.map Player.pid
      = (S.players.map (subStatsF m tot mk ∘ fun q =>
          { addStatsF m.challengerPid m.opponentPid m.winnerId tot mk q with
              position := (applyMoveF m.challengerPid p2.position p1.position q).position })).map Player.pid
      from (pid_map_map hGpid S.players).symm] at hnd2
  have hfind2 : (S.players.map (subStatsF m tot mk ∘ fun q =>
      { addStatsF m.challengerPid m.opponentPid m.winnerId tot mk q with
          position := (applyMoveF m.challengerPid p2.position p1.position q).position })).find?
        (fun p => p.pid == m.challengerPid)
      = some ((subStatsF m tot mk ∘ fun q =>
          { addStatsF m.challengerPid m.opponentPid m.winnerId tot mk q with
              position := (applyMoveF m.challengerPid p2.position p1.position q).position }) p1) := by
    rw [List.find?_map]
    rw [show ((fun p => p.pid == m.challengerPid) ∘ (subStatsF m tot mk ∘ fun q =>
        { addStatsF m.challengerPid m.opponentPid m.winnerId tot mk q with
            position := (applyMoveF m.challengerPid p2.position p1.position q).position }))
        = (fun p => p.pid == m.challengerPid) from funext fun x => by
          simp [Function.comp, subStatsF_pid, addStatsF_pid]]
    rw [hfindp1]
    rfl
  rw [reverseLadderMove_closed hnd2 hfind2, List.map_map]
  have hid : ∀ q ∈ S.players,
      (reverseMoveF m.challengerPid p1.position p2.position ∘
        (subStatsF m tot mk ∘ fun q =>
          { addStatsF m.challengerPid m.opponentPid m.winnerId tot mk q with
              position := (applyMoveF m.challengerPid p2.position p1.position q).position })) q
      = q := by
    intro q hq
    simp only [Function.comp_apply]
    refine add_del_pointwise_moved m tot mk p1.position p2.position q (hnonneg q hq)
      htot hlt ?_ ?_
    · intro hqp
      have h2 := find?_pid_self hndpid hq
      rw [hqp, hfindp1] at h2
      cases h2
      rfl
    · intro hqp hpos
      have hqe : q = p1 := List.inj_on_of_nodup_map hndpos hq hmem1 hpos
      exact hqp (by rw [hqe]; exact hmch.symm)
  have hfinal := List.map_congr_left hid
  simpa using hfinal


set_option maxHeartbeats 1000000 in
theorem delete_players_unmoved (S : AppState) (p1 p2 : Player) (w : String)
    (tot : SetsTotals) (mk : Option MonthKey) (m : MatchRecord)
    (hnonneg : ∀ q ∈ S.players, 0 ≤ q.matchesPlayed ∧ 0 ≤ q.matchesWon ∧
      0 ≤ q.setsWon ∧ 0 ≤ q.setsLost ∧ 0 ≤ q.gamesWon ∧ 0 ≤ q.gamesLost ∧
      0 ≤ q.apr ∧ 0 ≤ q.may ∧ 0 ≤ q.jun ∧ 0 ≤ q.jul ∧ 0 ≤ q.aug)
    (hmch : m.challengerPid = p1.pid) (hmop : m.opponentPid = p2.pid)
    (hmw : m.winnerId = w)
    (htot : 0 ≤ tot.p1Sets ∧ 0 ≤ tot.p2Sets ∧ 0 ≤ tot.p1Games ∧ 0 ≤ tot.p2Games) :
    ((S.players.map (addStatsF p1.pid p2.pid w tot mk)).map
        (fun p => p)).map (subStatsF m tot mk) = S.players := by
  rw [← hmch, ← hmop, ← hmw]
  rw [List.map_map, List.map_map]
  have hid : ∀ q ∈ S.players,
      ((subStatsF m tot mk ∘ fun p => p) ∘
        addStatsF m.challengerPid m.opponentPid m.winnerId tot mk) q = q := by
    intro q hq
    simp only [Function.comp_apply]
    exact subStatsF_addStatsF m tot mk q (hnonneg q hq) htot
  have hfinal := List.map_congr_left hid
  simpa using hfinal

theorem deleteMatch_head (pc : Int) (ps : List Player) (rest : List MatchRecord)
    (m : MatchRecord) (id : String) (hm : m.id = id) :
    deleteMatch ⟨pc, ps, m :: rest⟩ id =
      { playerCount := pc
        «matches» := (m :: rest).filter (fun x => ¬(x.id == id))
        players :=
          if (parseScore m.score).valid = true ∧
              (validateSets (parseScore m.score).sets).ok = true then
            (if m.ladderMoveApplied then
              reverseLadderMove
                (ps.map (subStatsF m (computeFromSets (parseScore m.score).sets)
                  (monthKeyFromDateISO m.date)))
                m.challengerPid m.challengerStartPos m.opponentStartPos
            else
              ps.map (subStatsF m (computeFromSets (parseScore m.score).sets)
                (monthKeyFromDateISO m.date)))
          else
            (if m.ladderMoveApplied then
              reverseLadderMove ps m.challengerPid m.challengerStartPos
                m.opponentStartPos
            else ps) } := by
  unfold deleteMatch
  rw [show ((⟨pc, ps, m :: rest⟩ : AppState).«matches») = m :: rest from rfl]
  rw [List.find?_cons_of_pos _ (by simp [hm])]
  dsimp only
  split_ifs <;> rfl

set_option maxHeartbeats 4000000 in
/-- **C4**: adding a match that the Add transaction accepts and then
deleting the freshly created match id restores every player record —
all counters, month buckets and ladder positions — exactly, on
snapshots satisfying the data-model invariants (distinct pids,
distinct positions, non-negative counters).  The stored score of the
new record always re-parses and re-validates, so the delete reverses
the statistics. -/
theorem claim_C4_add_then_delete (S : AppState) (P : AddParams) (newId : String)
    (S2 : AppState)
    (hndpid : (S.players.map Player.pid).Nodup)
    (hndpos : (S.players.map Player.position).Nodup)
    (hnonneg : ∀ q ∈ S.players, 0 ≤ q.matchesPlayed ∧ 0 ≤ q.matchesWon ∧
      0 ≤ q.setsWon ∧ 0 ≤ q.setsLost ∧ 0 ≤ q.gamesWon ∧ 0 ≤ q.gamesLost ∧
      0 ≤ q.apr ∧ 0 ≤ q.may ∧ 0 ≤ q.jun ∧ 0 ≤ q.jul ∧ 0 ≤ q.aug)
    (hadd : addMatch S P newId = .ok S2) :
    (deleteMatch S2 newId).players = S.players := by
  unfold addMatch at hadd
  dsimp only at hadd
  rcases hp2 : S.players.find? (fun p => p.position == clampNum P.posInput 1 S.playerCount) with _ | p2
  · rw [hp2] at hadd
    exact absurd hadd (by simp)
  · rw [hp2] at hadd
    dsimp only at hadd
    by_cases hname2 : trimChars p2.name.data = []
    · rw [if_pos hname2] at hadd
      exact absurd hadd (by simp)
    · rw [if_neg hname2] at hadd
      by_cases hch : P.challengerPid = ""
      · rw [if_pos hch] at hadd
        exact absurd hadd (by simp)
      · rw [if_neg hch] at hadd
        rcases hp1 : S.players.find? (fun p => p.pid == P.challengerPid) with _ | p1
        · rw [hp1] at hadd
          exact absurd hadd (by simp)
        · rw [hp1] at hadd
          dsimp only at hadd
          by_cases hname1 : trimChars p1.name.data = []
          · rw [if_pos hname1] at hadd
            exact absurd hadd (by simp)
          · rw [if_neg hname1] at hadd
            by_cases hpeq : p1.pid = p2.pid
            · rw [if_pos hpeq] at hadd
              exact absurd hadd (by simp)
            · rw [if_neg hpeq] at hadd
              by_cases hval : (parseScore P.score).valid = true
              · rw [if_neg (not_not_intro hval)] at hadd
                by_cases hok : (validateSets (parseScore P.score).sets).ok = true
                · rw [if_neg (not_not_intro hok)] at hadd
                  have hmem1 : p1 ∈ S.players := List.mem_of_find?_eq_some hp1
                  have hfind1 : S.players.find? (fun p => p.pid == p1.pid) = some p1 := find?_pid_self hndpid hmem1
                  have hsetsnn := validateSets_ok_nonneg hok
                  have htot := computeFromSets_nonneg hsetsnn
                  have hcond : (parseScore (String.mk (trimChars P.score.data))).valid = true ∧
                      (validateSets (parseScore (String.mk (trimChars P.score.data))).sets).ok
                        = true := by
                    rw [parseScore_stored]
                    exact ⟨hval, hok⟩
                  by_cases hmove : P.winner = "p1" ∧ p1.position > p2.position
                  · have hlt : p2.position < p1.position := hmove.2
                    rw [if_pos hmove, applyLadderMove_pos hndpid hfind1 hlt] at hadd
                    rw [Except.ok.injEq] at hadd
                    subst hadd
                    rw [deleteMatch_head _ _ _ _ _ rfl]
                    dsimp only
                    rw [if_pos hcond]
                    rw [if_pos (rfl : true = true)]
                    rw [parseScore_stored P.score]
                    exact delete_players_moved S p1 p2 P.winner _ _ _ hndpid hndpos
                      hnonneg hmem1 rfl rfl rfl htot hlt
                  · rw [if_neg hmove] at hadd
                    rw [Except.ok.injEq] at hadd
                    subst hadd
                    rw [deleteMatch_head _ _ _ _ _ rfl]
                    dsimp only
                    rw [if_pos hcond]
                    rw [if_neg (show ¬(false = true) by simp)]
                    rw [parseScore_stored P.score]
                    exact delete_players_unmoved S p1 p2 P.winner _ _ _ hnonneg
                      rfl rfl rfl htot
                · rw [if_pos hok] at hadd
                  exact absurd hadd (by simp)
              · rw [if_pos hval] at hadd
                exact absurd hadd (by simp)

/-- Add-match parameters of the spec's end-to-end scenario. -/
def sampleAddParams : AddParams :=
  ⟨"2026-04-10", 2, "p5", "p1", "Clay", "6-4 6-3"⟩

/-- Snapshot with the five-player roster and an empty log. -/
def sampleAddState : AppState := ⟨5, sampleRoster, []⟩

set_option maxHeartbeats 2000000 in
/-- Witness for C4: the end-to-end scenario round-trips. -/
theorem claim_C4_witness :
    (deleteMatch
      (((addMatch sampleAddState sampleAddParams "m1").toOption).getD sampleAddState)
      "m1").players = sampleAddState.players :=
  claim_C4_add_then_delete sampleAddState sampleAddParams "m1"
    (((addMatch sampleAddState sampleAddParams "m1").toOption).getD sampleAddState)
    (by decide) (by decide) (by decide) (by rfl)


/-! ## Toolkit for the edit transaction -/

theorem find?_decomp {α : Type} {p : α → Bool} {l : List α} {b : α}
    (h : l.find? p = some b) :
    ∃ l1 l2, l = l1 ++ b :: l2 ∧ ∀ a ∈ l1, p a = false := by
  induction l with
  | nil => cases h
  | cons x xs ih =>
    rcases hx : p x with _ | _
    · rw [List.find?_cons_of_neg _ (by simp [hx])] at h
      obtain ⟨l1, l2, hdec, hpre⟩ := ih h
      refine ⟨x :: l1, l2, by rw [hdec]; rfl, ?_⟩
      intro a ha
      rcases List.mem_cons.mp ha with rfl | ha2
      · exact hx
      · exact hpre a ha2
    · rw [List.find?_cons_of_pos _ hx] at h
      cases h
      exact ⟨[], xs, rfl, by intro a ha; cases ha⟩

set_option maxHeartbeats 2000000 in
/-- The edit transaction's subtraction delta is the delete
transaction's reversal. -/
theorem deltaStatsF_neg_eq_subStatsF (m : MatchRecord) (tot : SetsTotals)
    (mk : Option MonthKey) (p : Player) :
    deltaStatsF m tot mk (-1) p = subStatsF m tot mk p := by
  obtain ⟨pid, pos, nm, mp, mw, sw, sl, gw, gl, a1, a2, a3, a4, a5⟩ := p
  rcases mk with _ | k
  · simp only [deltaStatsF, subStatsF]
    split_ifs <;> simp [clampMin0] <;> omega
  · cases k <;>
      (simp only [deltaStatsF, subStatsF, setMonth, getMonth]
       split_ifs <;> simp [clampMin0] <;> omega)

set_option maxHeartbeats 2000000 in
/-- The edit transaction's clamped addition delta agrees with the add
transaction's unclamped one on non-negative player counters. -/
theorem deltaStatsF_one_eq_addStatsF (m : MatchRecord) (tot : SetsTotals)
    (mk : Option MonthKey) (x : Player)
    (hx : 0 ≤ x.matchesPlayed ∧ 0 ≤ x.matchesWon ∧ 0 ≤ x.setsWon ∧
      0 ≤ x.setsLost ∧ 0 ≤ x.gamesWon ∧ 0 ≤ x.gamesLost ∧ 0 ≤ x.apr ∧
      0 ≤ x.may ∧ 0 ≤ x.jun ∧ 0 ≤ x.jul ∧ 0 ≤ x.aug)
    (htot : 0 ≤ tot.p1Sets ∧ 0 ≤ tot.p2Sets ∧ 0 ≤ tot.p1Games ∧ 0 ≤ tot.p2Games) :
    deltaStatsF m tot mk 1 x =
      addStatsF m.challengerPid m.opponentPid m.winnerId tot mk x := by
  obtain ⟨pid, pos, nm, mp, mw, sw, sl, gw, gl, a1, a2, a3, a4, a5⟩ := x
  obtain ⟨t1, t2, t3, t4⟩ := tot
  rcases mk with _ | k
  · simp only [deltaStatsF, addStatsF] at *
    split_ifs <;> simp_all [clampMin0] <;> omega
  · cases k <;>
      (simp only [deltaStatsF, addStatsF, setMonth, getMonth] at *
       split_ifs <;> simp_all [clampMin0] <;> omega)

/-- Like `subStatsF_setPos` for the edit delta. -/
theorem deltaStatsF_setPos (m : MatchRecord) (tot : SetsTotals)
    (mk : Option MonthKey) (dir : Int) (q : Player) (v : Int) :
    deltaStatsF m tot mk dir { q with position := v } =
      { deltaStatsF m tot mk dir q with position := v } := by
  obtain ⟨pid, pos, nm, mp, mw, sw, sl, gw, gl, a1, a2, a3, a4, a5⟩ := q
  rcases mk with _ | k
  · simp only [deltaStatsF]
    split_ifs <;> rfl
  · cases k <;> (simp only [deltaStatsF, setMonth, getMonth]; split_ifs <;> rfl)

set_option maxHeartbeats 2000000 in
/-- `deltaStatsF` keeps counters non-negative on non-negative input. -/
theorem deltaStatsF_nonneg (m : MatchRecord) (tot : SetsTotals)
    (mk : Option MonthKey) (dir : Int) (q : Player)
    (hq : 0 ≤ q.matchesPlayed ∧ 0 ≤ q.matchesWon ∧ 0 ≤ q.setsWon ∧
      0 ≤ q.setsLost ∧ 0 ≤ q.gamesWon ∧ 0 ≤ q.gamesLost ∧ 0 ≤ q.apr ∧
      0 ≤ q.may ∧ 0 ≤ q.jun ∧ 0 ≤ q.jul ∧ 0 ≤ q.aug) :
    0 ≤ (deltaStatsF m tot mk dir q).matchesPlayed ∧
      0 ≤ (deltaStatsF m tot mk dir q).matchesWon ∧
      0 ≤ (deltaStatsF m tot mk dir q).setsWon ∧
      0 ≤ (deltaStatsF m tot mk dir q).setsLost ∧
      0 ≤ (deltaStatsF m tot mk dir q).gamesWon ∧
      0 ≤ (deltaStatsF m tot mk dir q).gamesLost ∧
      0 ≤ (deltaStatsF m tot mk dir q).apr ∧ 0 ≤ (deltaStatsF m tot mk dir q).may ∧
      0 ≤ (deltaStatsF m tot mk dir q).jun ∧ 0 ≤ (deltaStatsF m tot mk dir q).jul ∧
      0 ≤ (deltaStatsF m tot mk dir q).aug := by
  obtain ⟨pid, pos, nm, mp, mw, sw, sl, gw, gl, a1, a2, a3, a4, a5⟩ := q
  rcases mk with _ | k
  · simp only [deltaStatsF] at *
    split_ifs <;> simp_all [clampMin0] <;> omega
  · cases k <;>
      (simp only [deltaStatsF, setMonth, getMonth] at *
       split_ifs <;> simp_all [clampMin0] <;> omega)

/-- `reverseMoveF` only touches the position. -/
theorem reverseMoveF_counters (cid : String) (s t : Int) (p : Player) :
    (reverseMoveF cid s t p).matchesPlayed = p.matchesPlayed ∧
      (reverseMoveF cid s t p).matchesWon = p.matchesWon ∧
      (reverseMoveF cid s t p).setsWon = p.setsWon ∧
      (reverseMoveF cid s t p).setsLost = p.setsLost ∧
      (reverseMoveF cid s t p).gamesWon = p.gamesWon ∧
      (reverseMoveF cid s t p).gamesLost = p.gamesLost ∧
      (reverseMoveF cid s t p).apr = p.apr ∧ (reverseMoveF cid s t p).may = p.may ∧
      (reverseMoveF cid s t p).jun = p.jun ∧ (reverseMoveF cid s t p).jul = p.jul ∧
      (reverseMoveF cid s t p).aug = p.aug := by
  unfold reverseMoveF unbumpF setPosF
  split_ifs <;> simp

/-- `find?` by pid through a pid-preserving map. -/
theorem find?_pid_map (f : Player → Player) (hf : ∀ p, (f p).pid = p.pid)
    (ps : List Player) (cid : String) :
    (ps.map f).find? (fun p => p.pid == cid) =
      (ps.find? (fun p => p.pid == cid)).map f := by
  rw [List.find?_map]
  rw [show ((fun p => p.pid == cid) ∘ f) = (fun p => p.pid == cid) from
    funext fun x => by simp [Function.comp, hf]]

/-- Position-only reversal commutes pointwise with a counter-only
update. -/
theorem reverseMoveF_comm (cid : String) (s t : Int) (f : Player → Player)
    (hfpid : ∀ p, (f p).pid = p.pid) (hfpos : ∀ p, (f p).position = p.position)
    (hfset : ∀ p v, f { p with position := v } = { f p with position := v })
    (p : Player) :
    reverseMoveF cid s t (f p) = f (reverseMoveF cid s t p) := by
  unfold reverseMoveF unbumpF setPosF
  by_cases hp : p.pid = cid
  · rw [if_pos (show (f p).pid = cid by rw [hfpid]; exact hp), if_pos hp]
    exact (hfset p s).symm
  · rw [if_neg (show ¬(f p).pid = cid by rw [hfpid]; exact hp), if_neg hp,
      if_neg (show ¬(f p).pid = cid by rw [hfpid]; exact hp), if_neg hp]
    by_cases hr : t < p.position ∧ p.position ≤ s
    · rw [if_pos (show t < (f p).position ∧ (f p).position ≤ s by
        rw [hfpos]; exact hr), if_pos hr, hfpos]
      exact (hfset p (p.position - 1)).symm
    · rw [if_neg (show ¬(t < (f p).position ∧ (f p).position ≤ s) by
        rw [hfpos]; exact hr), if_neg hr]

/-- Ladder reversal commutes with a pid- and position-preserving map
over a distinct-pid roster. -/
theorem reverseLadderMove_map_comm {ps : List Player} {cid : String} {s t : Int}
    (f : Player → Player)
    (hndpid : (ps.map Player.pid).Nodup)
    (hfpid : ∀ p, (f p).pid = p.pid) (hfpos : ∀ p, (f p).position = p.position)
    (hfset : ∀ p v, f { p with position := v } = { f p with position := v }) :
    reverseLadderMove (ps.map f) cid s t = (reverseLadderMove ps cid s t).map f := by
  rcases hfind : ps.find? (fun p => p.pid == cid) with _ | c
  · have hfind2 : (ps.map f).find? (fun p => p.pid == cid) = none := by
      rw [find?_pid_map f hfpid, hfind]
      rfl
    simp [reverseLadderMove, hfind, hfind2]
  · have hfind2 : (ps.map f).find? (fun p => p.pid == cid) = some (f c) := by
      rw [find?_pid_map f hfpid, hfind]
      rfl
    have hnd2 : ((ps.map f).map Player.pid).Nodup := by
      rw [pid_map_map hfpid]
      exact hndpid
    rw [reverseLadderMove_closed hnd2 hfind2, reverseLadderMove_closed hndpid hfind,
      List.map_map, List.map_map]
    exact List.map_congr_left
      (fun q _ => reverseMoveF_comm cid s t f hfpid hfpos hfset q)

/-- `applyMatchDelta` on a record whose score parses and validates. -/
theorem matchDelta_ok {m : MatchRecord} (ps : List Player) (dir : Int)
    (hv : (parseScore m.score).valid = true)
    (hk : (validateSets (parseScore m.score).sets).ok = true) :
    matchDelta ps m dir =
      .ok (ps.map (deltaStatsF m (computeFromSets (parseScore m.score).sets)
        (monthKeyFromDateISO m.date) dir)) := by
  unfold matchDelta
  rw [if_pos hv, if_pos hk]

/-- A match record with its id blanked, for comparing log contents
modulo id. -/
def stripId (m : MatchRecord) : MatchRecord := { m with id := "" }

/-- The data-model invariant on a player record: every counter is
non-negative. -/
abbrev countersNonneg (q : Player) : Prop :=
  0 ≤ q.matchesPlayed ∧ 0 ≤ q.matchesWon ∧ 0 ≤ q.setsWon ∧ 0 ≤ q.setsLost ∧
    0 ≤ q.gamesWon ∧ 0 ≤ q.gamesLost ∧ 0 ≤ q.apr ∧ 0 ≤ q.may ∧ 0 ≤ q.jun ∧
    0 ≤ q.jul ∧ 0 ≤ q.aug

theorem updateFirst_map_pid (ps : List Player) (cid : String) (f : Player → Player)
    (hf : ∀ p, (f p).pid = p.pid) :
    (updateFirst ps cid f).map Player.pid = ps.map Player.pid := by
  induction ps with
  | nil => rfl
  | cons p rest ih =>
    unfold updateFirst
    split_ifs with h
    · simp [hf]
    · simp only [List.map_cons, ih]

/-- Ladder reversal never changes the pid sequence. -/
theorem reverseLadderMove_map_pid (ps : List Player) (cid : String) (s t : Int) :
    (reverseLadderMove ps cid s t).map Player.pid = ps.map Player.pid := by
  unfold reverseLadderMove
  rcases hf : ps.find? (fun p => p.pid == cid) with _ | c
  · rw [hf]
  · rw [hf]
    dsimp only
    rw [updateFirst_map_pid _ _ _ (setPosF_pid s)]
    exact pid_map_map (unbumpF_pid cid t s) ps

/-- Ladder reversal keeps all counters non-negative. -/
theorem reverseLadderMove_nonneg {ps : List Player} {cid : String} {s t : Int}
    (hnd : (ps.map Player.pid).Nodup)
    (h : ∀ p ∈ ps, countersNonneg p) :
    ∀ q ∈ reverseLadderMove ps cid s t, countersNonneg q := by
  intro q hq
  rcases hfind : ps.find? (fun p => p.pid == cid) with _ | c
  · unfold reverseLadderMove at hq
    rw [hfind] at hq
    exact h q hq
  · rw [reverseLadderMove_closed hnd hfind] at hq
    obtain ⟨p, hp, rfl⟩ := List.mem_map.mp hq
    obtain ⟨e1, e2, e3, e4, e5, e6, e7, e8, e9, e10, e11⟩ :=
      reverseMoveF_counters cid s t p
    unfold countersNonneg
    rw [e1, e2, e3, e4, e5, e6, e7, e8, e9, e10, e11]
    exact h p hp

/-- A move that reports `applied = false` returns the roster unchanged. -/
theorem applyLadderMove_snd_false (ps : List Player) (cid : String) (t : Int)
    (h : (applyLadderMove ps cid t).2 = false) :
    (applyLadderMove ps cid t).1 = ps := by
  unfold applyLadderMove at h ⊢
  rcases hf : ps.find? (fun p => p.pid == cid) with _ | c
  · rw [hf]
  · rw [hf] at h ⊢
    dsimp only at h ⊢
    by_cases hc : c.position ≤ t
    · rw [if_pos hc]
    · rw [if_neg hc] at h
      exact absurd h (by simp)

set_option maxHeartbeats 1000000 in
/-- Pointwise: the edit transaction first adopts the moved positions and
then applies the clamped `+1` delta; the add transaction first adds the
unclamped statistics and then adopts the moved positions.  On
non-negative counters the two composites agree. -/
theorem edit_add_pointwise {ps : List Player} (hnd : (ps.map Player.pid).Nodup)
    (mv : List Player × Bool) (hmv1 : mv.2 = false → mv.1 = ps)
    (m : MatchRecord) (tot : SetsTotals) (mk : Option MonthKey)
    (htot : 0 ≤ tot.p1Sets ∧ 0 ≤ tot.p2Sets ∧ 0 ≤ tot.p1Games ∧ 0 ≤ tot.p2Games)
    (q : Player) (hq : q ∈ ps) (hqn : countersNonneg q) :
    deltaStatsF m tot mk 1
      (match mv.1.find? (fun x => x.pid == q.pid) with
       | some a => { q with position := a.position }
       | none => q) =
    (fun p => if ¬mv.2 then p else
       match mv.1.find? (fun x => x.pid == p.pid) with
       | some a => { p with position := a.position }
       | none => p)
      (addStatsF m.challengerPid m.opponentPid m.winnerId tot mk q) := by
  have hpid := addStatsF_pid m.challengerPid m.opponentPid m.winnerId tot mk q
  dsimp only
  rcases hb : mv.2 with _ | _
  · rw [if_pos (by simp [hb])]
    rw [hmv1 hb, find?_pid_self hnd hq]
    exact deltaStatsF_one_eq_addStatsF m tot mk q hqn htot
  · rw [if_neg (by simp [hb])]
    rcases hfa : mv.1.find? (fun x => x.pid == q.pid) with _ | a
    · have hfa2 : mv.1.find? (fun x => x.pid ==
          (addStatsF m.challengerPid m.opponentPid m.winnerId tot mk q).pid) = none := by
        simp only [hpid]
        exact hfa
      rw [hfa, hfa2]
      exact deltaStatsF_one_eq_addStatsF m tot mk q hqn htot
    · have hfa2 : mv.1.find? (fun x => x.pid ==
          (addStatsF m.challengerPid m.opponentPid m.winnerId tot mk q).pid) = some a := by
        simp only [hpid]
        exact hfa
      rw [hfa, hfa2]
      dsimp only
      rw [deltaStatsF_setPos, deltaStatsF_one_eq_addStatsF m tot mk q hqn htot]


theorem map_id_of_pred_false {l : List MatchRecord} {e : MatchRecord} {id : String}
    (h : ∀ a ∈ l, (a.id == id) = false) :
    l.map (fun m => if m.id == id then e else m) = l := by
  induction l with
  | nil => rfl
  | cons x xs ih =>
    rw [List.map_cons, if_neg (by simp [h x (List.mem_cons_self x xs)]),
      ih (fun a ha => h a (List.mem_cons_of_mem x ha))]

theorem filter_keep_of_pred_false {l : List MatchRecord} {id : String}
    (h : ∀ a ∈ l, (a.id == id) = false) :
    l.filter (fun x => ¬(x.id == id)) = l := by
  induction l with
  | nil => rfl
  | cons x xs ih =>
    rw [List.filter_cons_of_pos (by simp [h x (List.mem_cons_self x xs)]),
      ih (fun a ha => h a (List.mem_cons_of_mem x ha))]

/-- Replacing the unique record carrying `id` in the log. -/
theorem map_replace_eq {l1 l2 : List MatchRecord} {M e : MatchRecord} {id : String}
    (hl1 : ∀ a ∈ l1, (a.id == id) = false)
    (hl2 : ∀ b ∈ l2, (b.id == id) = false)
    (hMid : (M.id == id) = true) :
    (l1 ++ M :: l2).map (fun m => if m.id == id then e else m) = l1 ++ e :: l2 := by
  rw [List.map_append, List.map_cons, if_pos hMid, map_id_of_pred_false hl1,
    map_id_of_pred_false hl2]

/-- Filtering the unique record carrying `id` out of the log. -/
theorem filter_out_eq {l1 l2 : List MatchRecord} {M : MatchRecord} {id : String}
    (hl1 : ∀ a ∈ l1, (a.id == id) = false)
    (hl2 : ∀ b ∈ l2, (b.id == id) = false)
    (hMid : (M.id == id) = true) :
    (l1 ++ M :: l2).filter (fun x => ¬(x.id == id)) = l1 ++ l2 := by
  rw [List.filter_append, List.filter_cons_of_neg (by simp [hMid]),
    filter_keep_of_pred_false hl1, filter_keep_of_pred_false hl2]

/-- In-place replacement and prepend-after-remove give the same log
contents modulo ids. -/
theorem perm_strip {l1 l2 : List MatchRecord} {e n : MatchRecord}
    (h : stripId e = stripId n) :
    List.Perm ((l1 ++ e :: l2).map stripId) ((n :: (l1 ++ l2)).map stripId) := by
  rw [List.map_append, List.map_cons, List.map_cons, List.map_append, h]
  exact List.perm_middle

set_option maxHeartbeats 4000000 in
/-- **C3**: on a snapshot satisfying the data-model invariants
(pairwise-distinct player pids, pairwise-distinct match ids,
non-negative counters), editing a logged match whose stored score still
parses and validates is equivalent to deleting it and re-adding a match
with the same replacement fields for the same two participants: the two
transactions produce the same player count, identical player lists
(counters, month buckets and positions), and match logs with the same
contents up to the match id, which Edit preserves and Add mints
fresh. -/
theorem claim_C3_edit_refines_delete_add
    (S : AppState) (id : String) (M : MatchRecord) (Q : EditParams)
    (P : AddParams) (newId : String) (p2A : Player) (E A : AppState)
    (hndpid : (S.players.map Player.pid).Nodup)
    (hndids : (S.«matches».map MatchRecord.id).Nodup)
    (hnonneg : ∀ q ∈ S.players, countersNonneg q)
    (hfind : S.«matches».find? (fun m => m.id == id) = some M)
    (hMv : (parseScore M.score).valid = true)
    (hMok : (validateSets (parseScore M.score).sets).ok = true)
    (hPd : P.date = Q.date) (hPsf : P.surface = Q.surface)
    (hPw : P.winner = Q.winner) (hPsc : P.score = Q.score)
    (hPch : P.challengerPid = M.challengerPid)
    (hp2A : (deleteMatch S id).players.find?
        (fun p => p.position == clampNum P.posInput 1 (deleteMatch S id).playerCount)
      = some p2A)
    (hp2Apid : p2A.pid = M.opponentPid)
    (hedit : editMatch S id Q = .ok E)
    (haddD : addMatch (deleteMatch S id) P newId = .ok A) :
    E.playerCount = A.playerCount ∧ E.players = A.players ∧
      List.Perm (E.«matches».map stripId) (A.«matches».map stripId) := by
  have hDeq : deleteMatch S id =
      { playerCount := S.playerCount
        players :=
          if M.ladderMoveApplied then
            reverseLadderMove
              (S.players.map (subStatsF M (computeFromSets (parseScore M.score).sets)
                (monthKeyFromDateISO M.date)))
              M.challengerPid M.challengerStartPos M.opponentStartPos
          else
            S.players.map (subStatsF M (computeFromSets (parseScore M.score).sets)
              (monthKeyFromDateISO M.date))
        «matches» := S.«matches».filter (fun x => ¬(x.id == id)) } := by
    unfold deleteMatch
    rw [hfind]
    dsimp only
    rw [if_pos (show (parseScore M.score).valid = true ∧
      (validateSets (parseScore M.score).sets).ok = true from ⟨hMv, hMok⟩)]
  have hdpid : (deleteMatch S id).players.map Player.pid = S.players.map Player.pid := by
    rw [hDeq]
    dsimp only
    split_ifs with hA
    · rw [reverseLadderMove_map_pid]
      exact pid_map_map (subStatsF_pid M _ _) S.players
    · exact pid_map_map (subStatsF_pid M _ _) S.players
  have hnddps : ((deleteMatch S id).players.map Player.pid).Nodup := by
    rw [hdpid]
    exact hndpid
  have hnndps : ∀ q ∈ (deleteMatch S id).players, countersNonneg q := by
    rw [hDeq]
    dsimp only
    have hbase : ∀ x ∈ S.players.map (subStatsF M
        (computeFromSets (parseScore M.score).sets) (monthKeyFromDateISO M.date)),
        countersNonneg x := by
      intro x hx
      obtain ⟨p, hp, rfl⟩ := List.mem_map.mp hx
      rw [← deltaStatsF_neg_eq_subStatsF]
      exact deltaStatsF_nonneg M _ _ (-1) p (hnonneg p hp)
    split_ifs with hA
    · exact reverseLadderMove_nonneg
        (by rw [pid_map_map (subStatsF_pid M _ _)]; exact hndpid) hbase
    · exact hbase
  -- invert the add transaction
  unfold addMatch at haddD
  dsimp only at haddD
  rw [hPsc, hPd, hPsf, hPw, hPch] at haddD
  rw [hp2A] at haddD
  dsimp only at haddD
  by_cases hname2 : trimChars p2A.name.data = []
  · rw [if_pos hname2] at haddD
    exact absurd haddD (by simp)
  rw [if_neg hname2] at haddD
  by_cases hch : M.challengerPid = ""
  · rw [if_pos hch] at haddD
    exact absurd haddD (by simp)
  rw [if_neg hch] at haddD
  rcases hp1A : (deleteMatch S id).players.find? (fun p => p.pid == M.challengerPid)
    with _ | p1A
  · rw [hp1A] at haddD
    exact absurd haddD (by simp)
  rw [hp1A] at haddD
  dsimp only at haddD
  by_cases hname1 : trimChars p1A.name.data = []
  · rw [if_pos hname1] at haddD
    exact absurd haddD (by simp)
  rw [if_neg hname1] at haddD
  by_cases hpeq : p1A.pid = p2A.pid
  · rw [if_pos hpeq] at haddD
    exact absurd haddD (by simp)
  rw [if_neg hpeq] at haddD
  by_cases hQv0 : ¬(parseScore Q.score).valid = true
  · rw [if_pos hQv0] at haddD
    exact absurd haddD (by simp)
  have hQv : (parseScore Q.score).valid = true := not_not.mp hQv0
  rw [if_neg hQv0] at haddD
  by_cases hQok0 : ¬(validateSets (parseScore Q.score).sets).ok = true
  · rw [if_pos hQok0] at haddD
    exact absurd haddD (by simp)
  have hQok : (validateSets (parseScore Q.score).sets).ok = true := not_not.mp hQok0
  rw [if_neg hQok0] at haddD
  rw [Except.ok.injEq] at haddD
  subst haddD
  -- invert the edit transaction
  unfold editMatch at hedit
  rw [hfind] at hedit
  dsimp only at hedit
  rw [if_neg hQv0] at hedit
  rw [if_neg hQok0] at hedit
  rw [matchDelta_ok _ (-1) hMv hMok] at hedit
  dsimp only at hedit
  have hps2 : (if M.ladderMoveApplied then
        reverseLadderMove S.players M.challengerPid M.challengerStartPos
          M.opponentStartPos
      else S.players).map
        (deltaStatsF M (computeFromSets (parseScore M.score).sets)
          (monthKeyFromDateISO M.date) (-1)) = (deleteMatch S id).players := by
    rw [hDeq]
    dsimp only
    rw [List.map_congr_left (fun x _ => deltaStatsF_neg_eq_subStatsF M
      (computeFromSets (parseScore M.score).sets) (monthKeyFromDateISO M.date) x)]
    split_ifs with hA
    · exact (reverseLadderMove_map_comm (subStatsF M _ _) hndpid (subStatsF_pid M _ _)
        (subStatsF_position M _ _) (subStatsF_setPos M _ _)).symm
    · rfl
  rw [hps2] at hedit
  rw [hp1A] at hedit
  have hmem2 : p2A ∈ (deleteMatch S id).players := List.mem_of_find?_eq_some hp2A
  have hfp2 : (deleteMatch S id).players.find? (fun p => p.pid == M.opponentPid)
      = some p2A := by
    have h := find?_pid_self hnddps hmem2
    rw [hp2Apid] at h
    exact h
  rw [hfp2] at hedit
  unfold matchDelta at hedit
  dsimp only at hedit
  rw [parseScore_stored] at hedit
  rw [if_pos hQv] at hedit
  rw [if_pos hQok] at hedit
  dsimp only at hedit
  rw [Except.ok.injEq] at hedit
  subst hedit
  -- compare the two snapshots
  have hp1Apid : p1A.pid = M.challengerPid := by
    simpa using List.find?_some hp1A
  have htotQ := computeFromSets_nonneg (validateSets_ok_nonneg hQok)
  refine ⟨?_, ?_, ?_⟩
  · dsimp only
    rw [hDeq]
  · dsimp only
    rw [hp1Apid, hp2Apid]
    rw [List.map_map, List.map_map]
    refine List.map_congr_left (fun q hq => ?_)
    have hmv1 : (if Q.winner = "p1" ∧ p1A.position > p2A.position then
          applyLadderMove (deleteMatch S id).players M.challengerPid p2A.position
        else ((deleteMatch S id).players, false)).2 = false →
        (if Q.winner = "p1" ∧ p1A.position > p2A.position then
          applyLadderMove (deleteMatch S id).players M.challengerPid p2A.position
        else ((deleteMatch S id).players, false)).1 = (deleteMatch S id).players := by
      intro h
      split_ifs at h ⊢ with hs
      · exact applyLadderMove_snd_false _ _ _ h
      · rfl
    simp only [Function.comp_apply]
    exact edit_add_pointwise hnddps _ hmv1 _ _ _ htotQ q hq (hnndps q hq)
  · dsimp only
    rw [hDeq]
    dsimp only
    obtain ⟨l1, l2, hSm, hl1⟩ := find?_decomp hfind
    have hMidb0 := List.find?_some hfind
    have hMidb : (M.id == id) = true := hMidb0
    have hMid : M.id = id := by simpa using hMidb
    have hl2 : ∀ b ∈ l2, (b.id == id) = false := by
      intro b hb
      rw [hSm, List.map_append, List.map_cons] at hndids
      have h1 := (List.nodup_append.mp hndids).2.1
      rw [List.nodup_cons] at h1
      have hnotin : M.id ∉ l2.map MatchRecord.id := h1.1
      have hne : b.id ≠ id := by
        rw [← hMid]
        intro he
        exact hnotin (he ▸ List.mem_map_of_mem MatchRecord.id hb)
      simpa using hne
    rw [hSm, hMid]
    rw [map_replace_eq hl1 hl2 hMidb]
    rw [filter_out_eq hl1 hl2 hMidb]
    exact perm_strip (by unfold stripId; rw [hp1Apid, hp2Apid])

/-- Snapshot after the sample add: roster with the move applied and the
logged match. -/
def sampleS1 : AppState :=
  ((addMatch sampleAddState sampleAddParams "m1").toOption).getD sampleAddState

/-- The record the sample add logs. -/
def sampleMatchM : MatchRecord :=
  ⟨"m1", "2026-04-10", 2, "p5", "p2", "p1", "6-4 6-3", "Clay", 5, 2, true⟩

/-- Replacement fields for the sample edit. -/
def sampleEditParams : EditParams := ⟨"2026-05-12", "Hard", "p2", "6-0 6-1"⟩

/-- The same fields as add-transaction parameters for the same pair. -/
def sampleAddParams2 : AddParams := ⟨"2026-05-12", 2, "p5", "p2", "Hard", "6-0 6-1"⟩

set_option maxHeartbeats 4000000 in
/-- Witness for C3: editing the sample logged match is the same as
deleting and re-adding it. -/
theorem claim_C3_witness :
    ((editMatch sampleS1 "m1" sampleEditParams).toOption.getD sampleAddState).playerCount
      = ((addMatch (deleteMatch sampleS1 "m1") sampleAddParams2 "m2").toOption.getD
          sampleAddState).playerCount ∧
    ((editMatch sampleS1 "m1" sampleEditParams).toOption.getD sampleAddState).players
      = ((addMatch (deleteMatch sampleS1 "m1") sampleAddParams2 "m2").toOption.getD
          sampleAddState).players ∧
    List.Perm
      ((((editMatch sampleS1 "m1" sampleEditParams).toOption.getD
          sampleAddState).«matches»).map stripId)
      ((((addMatch (deleteMatch sampleS1 "m1") sampleAddParams2 "m2").toOption.getD
          sampleAddState).«matches»).map stripId) :=
  claim_C3_edit_refines_delete_add sampleS1 "m1" sampleMatchM sampleEditParams sampleAddParams2 "m2"
    (samplePlayer "p2" 2)
    ((editMatch sampleS1 "m1" sampleEditParams).toOption.getD sampleAddState)
    ((addMatch (deleteMatch sampleS1 "m1") sampleAddParams2 "m2").toOption.getD
      sampleAddState)
    (by decide) (by decide) (by decide) (by rfl) (by rfl) (by rfl)
    rfl rfl rfl rfl rfl (by rfl) (by rfl) (by rfl) (by rfl)

end Heron
